import Mathlib

/-!
Top/threadsafe.c : the deferred-call queue, the gated entry points and the
channel accessors.

A shallow embedding of `Top/threadsafe.c`.

Conventions of the embedding

* A byte is a `Nat` below 256; a block of memory is a `List Nat` of bytes.
* A C scalar (char, int, long, pointer, float, double) is carried as its object
  representation read as a little-endian number: a `Nat` below `256 ^ sizeof`.
  `memcpy` of a scalar writes those bytes, a typed load reads them back.
* The calls of the functions declared but not defined in the file
  (`csound...Internal`) are recorded, in order, as a list of `Call`s.
* Undefined behaviour of the C program (an access outside an allocation) is a
  `Fault`.
* The queue indices are 32-bit unsigned values (as the locals that receive
  them), the capacity of a string payload is an `int`; arithmetic on them wraps
  explicitly.
-/

namespace Csound

/-! ## Bytes and blocks -/

/-- The `k` little-endian bytes of the object representation `x`. -/
def leBytes : Nat → Nat → List Nat
  | 0, _ => []
  | k + 1, x => x % 256 :: leBytes k (x / 256)

/-- The number a list of bytes represents, little-endian. -/
def leValue : List Nat → Nat
  | [] => 0
  | b :: bs => b + 256 * leValue bs

/-- The bytes `blk[off .. off+k)`. -/
def bytesAt (blk : List Nat) (off k : Nat) : List Nat :=
  (blk.drop off).take k

/-- A typed load `*((T *)(blk + off))` with `sizeof(T) = k`. -/
def load (blk : List Nat) (off k : Nat) : Nat :=
  leValue (bytesAt blk off k)

/-- The effect of `memcpy(dst + off, src, src.length)` inside the block `dst`. -/
def memcpy (dst : List Nat) (off : Nat) (src : List Nat) : List Nat :=
  dst.take off ++ src ++ dst.drop (off + src.length)

/-- The sizes the compiler gives the types the file packs into argument blocks.
`sizeof(char) = 1`, `sizeof(int) = 4` and `sizeof(double) = 8` are fixed below. -/
structure ABI where
  sizeofMYFLT : Nat
  sizeofPtr : Nat
  sizeofLong : Nat
  deriving DecidableEq, Repr

/-- LP64 with `USE_DOUBLE`: `MYFLT` is `double`. -/
def lp64Double : ABI := ⟨8, 8, 8⟩

/-- LP64 without `USE_DOUBLE`: `MYFLT` is `float`. -/
def lp64Float : ABI := ⟨4, 8, 8⟩

/-- The value of `sizeof(int)`. -/
abbrev sizeofInt : Nat := 4

/-- The value of `sizeof(double)`. -/
abbrev sizeofDouble : Nat := 8

/-! ## The queue -/

abbrev INPUT_MESSAGE : Int := 0
abbrev READ_SCORE : Int := 1
abbrev SCORE_EVENT : Int := 2
abbrev SCORE_EVENT_ABS : Int := 3
abbrev TABLE_COPY_OUT : Int := 4
abbrev TABLE_COPY_IN : Int := 5
abbrev TABLE_SET : Int := 6

abbrev API_MAX_QUEUE : Nat := 64

/-- One queue entry: `struct _message_queue`. -/
structure message_queue_t where
  message : Int
  args : List Nat
  deriving DecidableEq, Repr

/-- An entry as `Calloc` leaves it. -/
def zeroEntry : message_queue_t := ⟨0, List.replicate 128 0⟩

/-- The part of `CSOUND` the queue uses. `msg_queue = none` is the NULL pointer;
otherwise it holds the `API_MAX_QUEUE` allocated entries. -/
structure CSOUND where
  msg_queue : Option (List message_queue_t)
  msg_queue_wp : Nat
  msg_queue_rp : Nat
  deriving DecidableEq, Repr

/-- An engine whose queue has never been used. -/
def fresh : CSOUND := ⟨none, 0, 0⟩

/-- What the C program may not do. -/
inductive Fault
  | outOfBounds (slot : Nat)
  | argsOverflow
  | fuel
  | badPointer (p : Nat)
  | nullDeref
  | overflow
  deriving DecidableEq, Repr

/-- A call of one of the internal functions, with its arguments. -/
inductive Call
  | csoundInputMessageInternal (message : Nat)
  | csoundReadScoreInternal (message : Nat)
  | csoundScoreEventInternal (type pfields numFields : Nat)
  | csoundScoreEventAbsoluteInternal (type pfields numFields time_ofs : Nat)
  | csoundTableCopyOutInternal (table ptable : Nat)
  | csoundTableCopyInInternal (table ptable : Nat)
  | csoundTableSetInternal (table index value : Nat)
  deriving DecidableEq, Repr

/-- The storage `message_enqueue` works on: the existing one, or the one
`Calloc(sizeof(message_queue_t)*API_MAX_QUEUE)` returns. -/
def queueOf (csound : CSOUND) : List message_queue_t :=
  match csound.msg_queue with
  | none => List.replicate API_MAX_QUEUE zeroEntry
  | some q => q

/-- The index update `i != API_MAX_QUEUE ? i + 1 : 0` on a `uint32_t`. -/
def advance (i : Nat) : Nat :=
  if i ≠ API_MAX_QUEUE then (i + 1) % 2 ^ 32 else 0

/-- Embedding of `message_enqueue`. -/
def message_enqueue (csound : CSOUND) (message : Int) (args : List Nat) (argsiz : Nat) :
    Except Fault CSOUND :=
  let wp := csound.msg_queue_wp % 2 ^ 32
  let q := queueOf csound
  if API_MAX_QUEUE ≤ wp then .error (.outOfBounds wp)
  else if 128 < argsiz ∨ args.length < argsiz then .error .argsOverflow
  else
    let old := q.getD wp zeroEntry
    let e : message_queue_t := ⟨message, memcpy old.args 0 (args.take argsiz)⟩
    .ok ⟨some (q.set wp e), advance wp, csound.msg_queue_rp⟩

/-- The `switch` of `message_dequeue` on one entry: the internal call it makes,
if any (a tag outside the enumeration makes none). -/
def decode (abi : ABI) (message : Int) (args : List Nat) : Option Call :=
  if message = INPUT_MESSAGE then
    some (.csoundInputMessageInternal (load args 0 abi.sizeofPtr))
  else if message = READ_SCORE then
    some (.csoundReadScoreInternal (load args 0 abi.sizeofPtr))
  else if message = SCORE_EVENT then
    some (.csoundScoreEventInternal (load args 0 1) (load args 1 abi.sizeofPtr)
      (load args (1 + abi.sizeofPtr) abi.sizeofLong))
  else if message = SCORE_EVENT_ABS then
    some (.csoundScoreEventAbsoluteInternal (load args 0 1) (load args 1 abi.sizeofPtr)
      (load args (1 + abi.sizeofPtr) abi.sizeofLong)
      (load args (1 + abi.sizeofPtr + abi.sizeofLong) sizeofDouble))
  else if message = TABLE_COPY_OUT then
    some (.csoundTableCopyOutInternal (load args 0 sizeofInt) (load args sizeofInt abi.sizeofPtr))
  else if message = TABLE_COPY_IN then
    some (.csoundTableCopyInInternal (load args 0 sizeofInt) (load args sizeofInt abi.sizeofPtr))
  else if message = TABLE_SET then
    some (.csoundTableSetInternal (load args 0 sizeofInt) (load args sizeofInt sizeofInt)
      (load args (2 * sizeofInt) abi.sizeofMYFLT))
  else none

/-- The `while(rp != wp)` loop of `message_dequeue`; returns the final read
cursor and the internal calls made, in order. -/
def dequeue_loop (abi : ABI) (q : List message_queue_t) (wp : Nat) :
    Nat → Nat → Except Fault (Nat × List Call)
  | 0, _ => .error .fuel
  | fuel + 1, rp =>
    if rp = wp then .ok (rp, [])
    else if API_MAX_QUEUE ≤ rp then .error (.outOfBounds rp)
    else
      let e := q.getD rp zeroEntry
      match dequeue_loop abi q wp fuel (advance rp) with
      | .error f => .error f
      | .ok (rp1, calls) => .ok (rp1, (decode abi e.message e.args).toList ++ calls)

/-- Embedding of `message_dequeue`: the new engine state and the internal
calls made, in order. The loop reads at most `API_MAX_QUEUE` slots before it
stops or leaves the allocation, so the fuel given is never used up
(`message_dequeue_total`). -/
def message_dequeue (abi : ABI) (csound : CSOUND) : Except Fault (CSOUND × List Call) :=
  match csound.msg_queue with
  | none => .ok (csound, [])
  | some q =>
    let rp := csound.msg_queue_rp % 2 ^ 32
    let wp := csound.msg_queue_wp % 2 ^ 32
    match dequeue_loop abi q wp (API_MAX_QUEUE + 2) rp with
    | .error f => .error f
    | .ok (_, calls) => .ok (⟨some q, wp, csound.msg_queue_rp⟩, calls)

/-- A call request as handed to `message_enqueue`. -/
structure Request where
  message : Int
  args : List Nat
  argsiz : Nat
  deriving DecidableEq, Repr

/-- Successive `message_enqueue` calls, in list order. -/
def enqueue_all (csound : CSOUND) : List Request → Except Fault CSOUND
  | [] => .ok csound
  | r :: rs =>
    match message_enqueue csound r.message r.args r.argsiz with
    | .error f => .error f
    | .ok s => enqueue_all s rs

/-- The calls a run made, when it ran to completion. -/
def callsOf (r : Except Fault (CSOUND × List Call)) : Option (List Call) :=
  match r with
  | .error _ => none
  | .ok (_, calls) => some calls

/-- The entry `message_enqueue` leaves in a slot that held `Calloc`ed zeros. -/
def entryOf (r : Request) : message_queue_t :=
  ⟨r.message, r.args.take r.argsiz ++ List.replicate (128 - r.argsiz) 0⟩

/-- The internal calls a run of entries gives rise to, in order. -/
def callsFor (abi : ABI) : List message_queue_t → List Call
  | [] => []
  | e :: es => (decode abi e.message e.args).toList ++ callsFor abi es

/-- Two requests used as concrete inputs: a table-set of table 3, index 5,
value 2.5 (as a double), and an input message whose text is at address 4096. -/
def reqTableSet : Request := ⟨TABLE_SET, [3, 0, 0, 0, 5, 0, 0, 0, 0, 0, 0, 0, 0, 0, 4, 64], 16⟩

/-- The second of the two: the input message. -/
def reqInputMessage : Request := ⟨INPUT_MESSAGE, [0, 16, 0, 0, 0, 0, 0, 0], 8⟩


/-! ## The per-kind enqueueing functions -/

/-- The local array `char args[argsize]` before anything is stored in it. Its
content is indeterminate: `junk` stands for what the stack happens to hold. -/
def vla (junk : List Nat) (argsize : Nat) : List Nat :=
  (junk ++ List.replicate argsize 0).take argsize

/-- The statement `memcpy(args + off, &x, k)` for a scalar `x` of `k` bytes
(and `args[off] = x` for `k = 1`), which must stay inside the local array. -/
def store (args : List Nat) (off k x : Nat) : Except Fault (List Nat) :=
  if off + k ≤ args.length then .ok (memcpy args off (leBytes k x)) else .error .argsOverflow

/-- Embedding of `csoundInputMessage_enqueue`. -/
def csoundInputMessage_enqueue (abi : ABI) (junk : List Nat) (csound : CSOUND)
    (message : Nat) : Except Fault CSOUND := do
  let argsize := abi.sizeofPtr
  let args := vla junk argsize
  let args ← store args 0 abi.sizeofPtr message
  message_enqueue csound INPUT_MESSAGE args argsize

/-- Embedding of `csoundReadScore_enqueue` (its result `OK` is dropped). -/
def csoundReadScore_enqueue (abi : ABI) (junk : List Nat) (csound : CSOUND)
    (message : Nat) : Except Fault CSOUND := do
  let argsize := abi.sizeofPtr
  let args := vla junk argsize
  let args ← store args 0 abi.sizeofPtr message
  message_enqueue csound READ_SCORE args argsize

/-- Embedding of `csoundTableCopyOut_enqueue`. -/
def csoundTableCopyOut_enqueue (abi : ABI) (junk : List Nat) (csound : CSOUND)
    (table ptable : Nat) : Except Fault CSOUND := do
  let argsize := sizeofInt + abi.sizeofPtr
  let args := vla junk argsize
  let args ← store args 0 sizeofInt table
  let args ← store args sizeofInt abi.sizeofPtr ptable
  message_enqueue csound TABLE_COPY_OUT args argsize

/-- Embedding of `csoundTableCopyIn_enqueue`. -/
def csoundTableCopyIn_enqueue (abi : ABI) (junk : List Nat) (csound : CSOUND)
    (table ptable : Nat) : Except Fault CSOUND := do
  let argsize := sizeofInt + abi.sizeofPtr
  let args := vla junk argsize
  let args ← store args 0 sizeofInt table
  let args ← store args sizeofInt abi.sizeofPtr ptable
  message_enqueue csound TABLE_COPY_IN args argsize

/-- Embedding of `csoundTableSet_enqueue`. -/
def csoundTableSet_enqueue (abi : ABI) (junk : List Nat) (csound : CSOUND)
    (table index value : Nat) : Except Fault CSOUND := do
  let argsize := 2 * sizeofInt + abi.sizeofMYFLT
  let args := vla junk argsize
  let args ← store args 0 sizeofInt table
  let args ← store args sizeofInt sizeofInt index
  let args ← store args (2 * sizeofInt) abi.sizeofMYFLT value
  message_enqueue csound TABLE_SET args argsize

/-- Embedding of `csoundScoreEvent_enqueue` (its result `OK` is dropped). The
field count is stored at `args+1+sizeof(MYFLT)`, as in the source. -/
def csoundScoreEvent_enqueue (abi : ABI) (junk : List Nat) (csound : CSOUND)
    (type pfields numFields : Nat) : Except Fault CSOUND := do
  let argsize := 1 + abi.sizeofPtr + abi.sizeofLong
  let args := vla junk argsize
  let args ← store args 0 1 type
  let args ← store args 1 abi.sizeofPtr pfields
  let args ← store args (1 + abi.sizeofMYFLT) abi.sizeofLong numFields
  message_enqueue csound SCORE_EVENT args argsize

/-- Embedding of `csoundScoreEventAbsolute_enqueue` (its result `OK` is
dropped). The field count is stored at `args+1+sizeof(MYFLT)` and the time
offset at `args+1+sizeof(MYFLT)+sizeof(long)`, as in the source. -/
def csoundScoreEventAbsolute_enqueue (abi : ABI) (junk : List Nat) (csound : CSOUND)
    (type pfields numFields time_ofs : Nat) : Except Fault CSOUND := do
  let argsize := 1 + abi.sizeofPtr + abi.sizeofLong + sizeofDouble
  let args := vla junk argsize
  let args ← store args 0 1 type
  let args ← store args 1 abi.sizeofPtr pfields
  let args ← store args (1 + abi.sizeofMYFLT) abi.sizeofLong numFields
  let args ← store args (1 + abi.sizeofMYFLT + abi.sizeofLong) sizeofDouble time_ofs
  message_enqueue csound SCORE_EVENT_ABS args argsize

/-- An enqueueing function followed by one `message_dequeue`: the internal
calls made. -/
def thenDrain (abi : ABI) (r : Except Fault CSOUND) : Option (List Call) :=
  match r with
  | .error _ => none
  | .ok s => callsOf (message_dequeue abi s)

/-! ## Channels

`csoundGetChannelPtr`, `csoundGetChannelLock`, the spin lock and the allocator
are not defined in the file. The two lookups are parameters (`ChannelDb`); the
payloads they point to are kept per kind, indexed by the pointer the lookup
returns; what an accessor does besides changing payloads (lookups, lock and
allocator calls, accesses to payload fields) is recorded as a list of `Ev`. -/

/-- The status `csoundGetChannelPtr` returns when the lookup succeeds. -/
abbrev CSOUND_SUCCESS : Int := 0

/-- The channel type asked of `csoundGetChannelPtr` (`CSOUND_..._CHANNEL`). -/
inductive Kind
  | control
  | audio
  | string
  | pvs
  deriving DecidableEq, Repr

/-- The direction asked of `csoundGetChannelPtr` (`CSOUND_INPUT_CHANNEL` or
`CSOUND_OUTPUT_CHANNEL`). -/
inductive Dir
  | input
  | output
  deriving DecidableEq, Repr

/-- The channel database as the accessors see it: `getChannelPtr name kind dir`
is the status `csoundGetChannelPtr` returns and the pointer it stores;
`getChannelLock name` is the lock `csoundGetChannelLock` returns (`none` for
NULL). -/
structure ChannelDb where
  getChannelPtr : List Nat → Kind → Dir → Int × Nat
  getChannelLock : List Nat → Option Nat

/-- The parts of a payload an accessor reads or writes. -/
inductive Field
  | value
  | size
  | data
  | contents
  | samples
  | header
  | frame
  deriving DecidableEq, Repr

/-- What an accessor does besides changing payloads, in program order. -/
inductive Ev
  | getChannelPtr (name : List Nat) (kind : Kind) (dir : Dir)
  | getChannelLock (name : List Nat)
  | spinLock (lock : Nat)
  | spinUnLock (lock : Nat)
  | read (p : Nat) (f : Field)
  | write (p : Nat) (f : Field)
  | free (addr : Nat)
  | strdup (addr : Nat)
  | calloc (addr n : Nat)
  | realloc (old addr n : Nat)
  deriving DecidableEq, Repr

/-- An allocated block of chars: where it is and what it holds. -/
structure Buffer where
  addr : Nat
  bytes : List Nat
  deriving DecidableEq, Repr

/-- The payload of a string channel: `char *data` (`none` for NULL) and
`int size`. -/
structure STRINGDAT where
  data : Option Buffer
  size : Int
  deriving DecidableEq, Repr

/-- Conversion of a `size_t` to `int`. -/
def toInt (n : Nat) : Int := ((n + 2 ^ 31) % 2 ^ 32 : Nat) - 2 ^ 31

/-- The cast `(unsigned int) i`. -/
def toUnsigned (i : Int) : Nat := (i % 2 ^ 32).toNat

/-- The C function `strlen` on the bytes of an allocation: the index of the
first zero byte, if there is one. -/
def strlen : List Nat → Option Nat
  | [] => none
  | b :: bs => if b = 0 then some 0 else (strlen bs).map (· + 1)

/-- Modelled from the spec: `cs_strdup`, which is not in the file, returns a
new block (at the address the allocator picks) holding the text and its
terminator. -/
def cs_strdup (newAddr : Nat) (string : List Nat) : Buffer :=
  ⟨newAddr, string ++ [0]⟩

/-- The events of `if (lock != NULL) csoundSpinLock(lock)`. -/
def lockEv (lock : Option Nat) : List Ev :=
  match lock with
  | none => []
  | some l => [.spinLock l]

/-- The events of `if (lock != NULL) csoundSpinUnLock(lock)`. -/
def unlockEv (lock : Option Nat) : List Ev :=
  match lock with
  | none => []
  | some l => [.spinUnLock l]

/-- Embedding of `csoundSetStringChannel`. `string` is the text before its
terminator, `newAddr` the address the allocator would return. -/
def csoundSetStringChannel (db : ChannelDb) (newAddr : Nat) (strs : List STRINGDAT)
    (name string : List Nat) : Except Fault (List STRINGDAT × List Ev) :=
  let r := db.getChannelPtr name .string .input
  if r.1 = CSOUND_SUCCESS then
    let p := r.2
    match strs[p]? with
    | none => .error (.badPointer p)
    | some stringdat =>
      let size := stringdat.size
      let lock := db.getChannelLock name
      let pre := [Ev.getChannelPtr name .string .input, .read p .size, .getChannelLock name] ++
        lockEv lock
      if string.length + 1 > toUnsigned size then
        let freeEv := match stringdat.data with
          | some b => [Ev.free b.addr]
          | none => []
        .ok (strs.set p ⟨some (cs_strdup newAddr string), toInt (string.length + 1)⟩,
          pre ++ [.read p .data] ++ freeEv ++ [.strdup newAddr, .write p .data, .write p .size] ++
            unlockEv lock)
      else
        match stringdat.data with
        | none => .error .nullDeref
        | some b =>
          if string.length + 1 ≤ b.bytes.length then
            .ok (strs.set p ⟨some ⟨b.addr, memcpy b.bytes 0 (string ++ [0])⟩, stringdat.size⟩,
              pre ++ [.read p .data, .write p .contents] ++ unlockEv lock)
          else .error .overflow
  else .ok (strs, [.getChannelPtr name .string .input])

/-- Embedding of `csoundGetStringChannel`. `dest` is the caller's buffer
(`none` for NULL); the result is what it holds afterwards. -/
def csoundGetStringChannel (db : ChannelDb) (strs : List STRINGDAT) (name : List Nat)
    (dest : Option (List Nat)) : Except Fault (Option (List Nat) × List Ev) :=
  if name.length = 0 then .ok (dest, [])
  else
    let r := db.getChannelPtr name .string .output
    if r.1 = CSOUND_SUCCESS then
      let p := r.2
      let lock := db.getChannelLock name
      match strs[p]? with
      | none => .error (.badPointer p)
      | some stringdat =>
        let chstring := stringdat.data
        let pre := [Ev.getChannelPtr name .string .output, .getChannelLock name, .read p .data] ++
          lockEv lock
        match dest, chstring with
        | some d, some b =>
          match strlen b.bytes with
          | none => .error .overflow
          | some len =>
            let n2 := toInt len
            if n2 < 0 ∨ d.length < n2.toNat + 1 then .error .overflow
            else
              .ok (some (memcpy d 0 (b.bytes.take n2.toNat ++ [0])),
                pre ++ [.read p .contents] ++ unlockEv lock)
        | _, _ => .ok (dest, pre ++ unlockEv lock)
    else .ok (dest, [.getChannelPtr name .string .output])

/-- Embedding of `csoundSetControlChannel`; `atomic` tells whether
`HAVE_ATOMIC_BUILTIN` is defined. `val` is the bit pattern of the `MYFLT`. -/
def csoundSetControlChannel (db : ChannelDb) (atomic : Bool) (ctl : List Nat)
    (name : List Nat) (val : Nat) : Except Fault (List Nat × List Ev) :=
  let r := db.getChannelPtr name .control .input
  if r.1 = CSOUND_SUCCESS then
    let p := r.2
    if ctl.length ≤ p then .error (.badPointer p)
    else if atomic then
      .ok (ctl.set p val, [.getChannelPtr name .control .input, .write p .value])
    else
      match db.getChannelLock name with
      | none => .error .nullDeref
      | some l =>
        .ok (ctl.set p val, [.getChannelPtr name .control .input, .getChannelLock name,
          .spinLock l, .write p .value, .spinUnLock l])
  else .ok (ctl, [.getChannelPtr name .control .input])

/-- Embedding of `csoundGetControlChannel`. `err` is what the caller's `int`
holds (`none` when the pointer passed is NULL); the result is the value
returned, what `err` holds afterwards, and the events. -/
def csoundGetControlChannel (db : ChannelDb) (ctl : List Nat) (name : List Nat)
    (err : Option Int) : Except Fault (Nat × Option Int × List Ev) :=
  if name.length = 0 then .ok (0, err, [])
  else
    let r := db.getChannelPtr name .control .output
    let err_ := r.1
    let errOut := match err with
      | none => none
      | some _ => some err_
    if err_ = CSOUND_SUCCESS then
      let p := r.2
      match ctl[p]? with
      | none => .error (.badPointer p)
      | some x => .ok (x, errOut, [.getChannelPtr name .control .output, .read p .value])
    else .ok (0, errOut, [.getChannelPtr name .control .output])

/-- The number of bytes allocated for the payload's text (0 for NULL). -/
def allocated (sd : STRINGDAT) : Nat :=
  match sd.data with
  | none => 0
  | some b => b.bytes.length

/-- A string payload whose recorded capacity is a non-negative `int` and is
backed by the allocation. -/
def validString (sd : STRINGDAT) : Prop :=
  0 ≤ sd.size ∧ sd.size < 2 ^ 31 ∧ sd.size ≤ (allocated sd : Int)

instance (sd : STRINGDAT) : Decidable (validString sd) := by
  unfold validString
  infer_instance

/-- The length of the string the payload holds, if it holds one. -/
def storedLength (sd : STRINGDAT) : Option Nat :=
  match sd.data with
  | none => none
  | some b => strlen b.bytes

/-- The payload invariant: recorded capacity ≥ length of the stored string + 1. -/
def capacityInv (sd : STRINGDAT) : Prop :=
  ∃ n, storedLength sd = some n ∧ (n : Int) + 1 ≤ sd.size

/-- The recorded capacity of the payload at `p`. -/
def capacityAt (p : Nat) (strs : List STRINGDAT) : Option Int :=
  (strs[p]?).map (·.size)

/-- Successive `csoundSetStringChannel` calls on one channel, each with the
address the allocator would return and the text; the payload stores after each
call. -/
def setStringRun (db : ChannelDb) (name : List Nat) :
    List STRINGDAT → List (Nat × List Nat) → Except Fault (List (List STRINGDAT))
  | _, [] => .ok []
  | strs, (newAddr, string) :: rest =>
    match csoundSetStringChannel db newAddr strs name string with
    | .error f => .error f
    | .ok (strs1, _) =>
      match setStringRun db name strs1 rest with
      | .error f => .error f
      | .ok l => .ok (strs1 :: l)

/-- A channel database with one channel, named "a", of the given kind, whose
payload pointer is 0 and whose lock is 9, usable in both directions. -/
def oneChannel (kind : Kind) : ChannelDb where
  getChannelPtr := fun name k _ => if name = [97] ∧ k = kind then (CSOUND_SUCCESS, 0) else (-1, 0)
  getChannelLock := fun name => if name = [97] then some 9 else none

/-- A string payload used as a concrete input: a 6-byte buffer at address 1000
holding "hi", recorded capacity 6. -/
def demoString : STRINGDAT := ⟨some ⟨1000, [104, 105, 0, 0, 0, 0]⟩, 6⟩

/-- The text "ok". -/
def demoText : List Nat := [111, 107]

/-! ## Audio channels -/

/-- Embedding of `csoundGetAudioChannel`. `ksmps` is what `csoundGetKsmps`
returns, `aud` holds the sample blocks of the audio channels, `samples` is the
caller's buffer; the result is what that buffer holds afterwards. The lock is
taken without a test for NULL. -/
def csoundGetAudioChannel (db : ChannelDb) (ksmps : Nat) (aud : List (List Nat))
    (name : List Nat) (samples : List Nat) : Except Fault (List Nat × List Ev) :=
  if name.length = 0 then .ok (samples, [])
  else
    let r := db.getChannelPtr name .audio .output
    if r.1 = CSOUND_SUCCESS then
      let p := r.2
      match db.getChannelLock name with
      | none => .error .nullDeref
      | some l =>
        match aud[p]? with
        | none => .error (.badPointer p)
        | some psamples =>
          if psamples.length < ksmps ∨ samples.length < ksmps then .error .overflow
          else
            .ok (memcpy samples 0 (psamples.take ksmps),
              [.getChannelPtr name .audio .output, .getChannelLock name, .spinLock l,
                .read p .samples, .spinUnLock l])
    else .ok (samples, [.getChannelPtr name .audio .output])

/-- Embedding of `csoundSetAudioChannel`; the result is the sample blocks
afterwards. -/
def csoundSetAudioChannel (db : ChannelDb) (ksmps : Nat) (aud : List (List Nat))
    (name : List Nat) (samples : List Nat) : Except Fault (List (List Nat) × List Ev) :=
  let r := db.getChannelPtr name .audio .input
  if r.1 = CSOUND_SUCCESS then
    let p := r.2
    match db.getChannelLock name with
    | none => .error .nullDeref
    | some l =>
      match aud[p]? with
      | none => .error (.badPointer p)
      | some psamples =>
        if psamples.length < ksmps ∨ samples.length < ksmps then .error .overflow
        else
          .ok (aud.set p (memcpy psamples 0 (samples.take ksmps)),
            [.getChannelPtr name .audio .input, .getChannelLock name, .spinLock l,
              .write p .samples, .spinUnLock l])
  else .ok (aud, [.getChannelPtr name .audio .input])

/-! ## Spectral-frame channels

In the store of spectral-frame payloads address 0 is the NULL pointer (which
`csoundGetPvsChannel` tests for); payloads are at the addresses from 1 on. -/

/-- The status the spectral-frame accessors return on failure. -/
abbrev CSOUND_ERROR : Int := -1

/-- An allocated block of floats: where it is and the elements it holds (as
bit patterns); its length is the allocated element count. -/
structure FrameBuf where
  addr : Nat
  elems : List Nat
  deriving DecidableEq, Repr

/-- Modelled from the spec: `PVSDATEXT`, declared outside the file. The file
relies on the bin count `N`, on `frame` (`none` for NULL) and on `frame` being
the last member, so that the first `sizeof(PVSDATEXT)-sizeof(float *)` bytes
are all the other fields: `N` and the remaining metadata, kept here as
`header`. -/
structure PVSDATEXT where
  N : Int
  header : List Nat
  frame : Option FrameBuf
  deriving DecidableEq, Repr

/-- The element count `N+2` of an allocation or copy of `sizeof(float)*(N+2)`
bytes: the sum is an `int` sum, and a negative count is no size. -/
def frameCount (N : Int) : Except Fault Nat :=
  if N + 2 < 0 ∨ 2 ^ 31 ≤ N + 2 then .error .overflow else .ok (N + 2).toNat

/-- The allocation step of `csoundSetPvsChannel`: `Calloc` when there is no
frame, `ReAlloc` when the recorded `N` is below the incoming one, nothing
otherwise. `newAddr` is the address the allocator would return, `junk` what the
part `ReAlloc` adds happens to hold. -/
def pvsAllocate (newAddr : Nat) (junk : List Nat) (p : Nat) (f fin : PVSDATEXT) :
    Except Fault (FrameBuf × List Ev) :=
  match f.frame with
  | none =>
    match frameCount fin.N with
    | .error e => .error e
    | .ok cnt => .ok (⟨newAddr, List.replicate cnt 0⟩, [.calloc newAddr cnt, .write p .frame])
  | some b =>
    if f.N < fin.N then
      match frameCount fin.N with
      | .error e => .error e
      | .ok cnt => .ok (⟨newAddr, vla (b.elems ++ junk) cnt⟩,
          [.read p .header, .realloc b.addr newAddr cnt, .write p .frame])
    else .ok (b, [.read p .header])

/-- Embedding of `csoundSetPvsChannel`: the payloads afterwards, the status
returned and the events. The lock is taken without a test for NULL. -/
def csoundSetPvsChannel (db : ChannelDb) (newAddr : Nat) (junk : List Nat)
    (pvs : List PVSDATEXT) (fin : PVSDATEXT) (name : List Nat) :
    Except Fault (List PVSDATEXT × Int × List Ev) :=
  let r := db.getChannelPtr name .pvs .input
  if r.1 = CSOUND_SUCCESS then
    let p := r.2
    match db.getChannelLock name with
    | none => .error .nullDeref
    | some l =>
      if p = 0 then .error .nullDeref
      else
        match pvs[p]? with
        | none => .error (.badPointer p)
        | some f =>
          let pre := [Ev.getChannelPtr name .pvs .input, .getChannelLock name, .spinLock l,
            .read p .frame]
          match pvsAllocate newAddr junk p f fin with
          | .error e => .error e
          | .ok (b, allocEv) =>
            match fin.frame with
            | none =>
              .ok (pvs.set p ⟨fin.N, fin.header, some b⟩, CSOUND_SUCCESS,
                pre ++ allocEv ++ [.write p .header, .spinUnLock l])
            | some src =>
              match frameCount fin.N with
              | .error e => .error e
              | .ok cnt =>
                if src.elems.length < cnt ∨ b.elems.length < cnt then .error .overflow
                else
                  .ok (pvs.set p ⟨fin.N, fin.header,
                      some ⟨b.addr, memcpy b.elems 0 (src.elems.take cnt)⟩⟩, CSOUND_SUCCESS,
                    pre ++ allocEv ++ [.write p .header, .read p .header, .read p .frame,
                      .write p .samples, .spinUnLock l])
  else .ok (pvs, CSOUND_ERROR, [.getChannelPtr name .pvs .input])

/-- Embedding of `csoundGetPvsChannel`: the caller's `fout` afterwards, the
status returned and the events. -/
def csoundGetPvsChannel (db : ChannelDb) (pvs : List PVSDATEXT) (fout : PVSDATEXT)
    (name : List Nat) : Except Fault (PVSDATEXT × Int × List Ev) :=
  let r := db.getChannelPtr name .pvs .output
  if r.1 = CSOUND_SUCCESS then
    let p := r.2
    let lock := db.getChannelLock name
    if p = 0 then
      .ok (fout, CSOUND_ERROR, [.getChannelPtr name .pvs .output, .getChannelLock name])
    else
      match lock with
      | none => .error .nullDeref
      | some l =>
        match pvs[p]? with
        | none => .error (.badPointer p)
        | some f =>
          let pre := [Ev.getChannelPtr name .pvs .output, .getChannelLock name, .spinLock l,
            .read p .header]
          match fout.frame, f.frame with
          | some d, some b =>
            if f.N < 0 ∨ b.elems.length < f.N.toNat ∨ d.elems.length < f.N.toNat then
              .error .overflow
            else
              .ok (⟨f.N, f.header, some ⟨d.addr, memcpy d.elems 0 (b.elems.take f.N.toNat)⟩⟩,
                CSOUND_SUCCESS, pre ++ [.read p .frame, .read p .samples, .spinUnLock l])
          | _, _ =>
            .ok (⟨f.N, f.header, fout.frame⟩, CSOUND_SUCCESS,
              pre ++ [.read p .frame, .spinUnLock l])
  else .ok (fout, CSOUND_ERROR, [.getChannelPtr name .pvs .output])

/-! ## The gated entry points -/

/-- The two mutexes the gated entry points take. -/
inductive Mutex
  | API_lock
  | init_pass_threadlock
  deriving DecidableEq, Repr

/-- What a gated entry point does, in program order. -/
inductive GateEv
  | csoundLockMutex (m : Mutex)
  | call (c : Call)
  | csoundUnlockMutex (m : Mutex)
  deriving DecidableEq, Repr

/-- Embedding of `csoundInputMessage`. -/
def csoundInputMessage (message : Nat) : List GateEv :=
  [.csoundLockMutex .API_lock, .call (.csoundInputMessageInternal message),
    .csoundUnlockMutex .API_lock]

/-- Embedding of `csoundReadScore`. `internal` gives the value each internal
function returns; the first component is the value returned (`return res`). -/
def csoundReadScore (internal : Call → Int) (message : Nat) : Option Int × List GateEv :=
  let res := internal (.csoundReadScoreInternal message)
  (some res, [.csoundLockMutex .API_lock, .call (.csoundReadScoreInternal message),
    .csoundUnlockMutex .API_lock])

/-- Embedding of `csoundTableCopyOut`. -/
def csoundTableCopyOut (table ptable : Nat) : List GateEv :=
  [.csoundLockMutex .API_lock, .call (.csoundTableCopyOutInternal table ptable),
    .csoundUnlockMutex .API_lock]

/-- Embedding of `csoundTableCopyIn`; `realtime` is `csound->oparms->realtime`. -/
def csoundTableCopyIn (realtime : Bool) (table ptable : Nat) : List GateEv :=
  (if realtime then [GateEv.csoundLockMutex .init_pass_threadlock] else []) ++
    [.call (.csoundTableCopyInInternal table ptable)] ++
    (if realtime then [GateEv.csoundUnlockMutex .init_pass_threadlock] else [])

/-- Embedding of `csoundTableSet`. -/
def csoundTableSet (table index value : Nat) : List GateEv :=
  [.csoundLockMutex .API_lock, .call (.csoundTableSetInternal table index value),
    .csoundUnlockMutex .API_lock]

/-- Embedding of `csoundScoreEvent`. The body ends after the unlock without a
`return` statement: the value of the internal call is dropped and the function
hands no value back (`none`). -/
def csoundScoreEvent (_internal : Call → Int) (type pfields numFields : Nat) :
    Option Int × List GateEv :=
  (none, [.csoundLockMutex .API_lock, .call (.csoundScoreEventInternal type pfields numFields),
    .csoundUnlockMutex .API_lock])

/-- Embedding of `csoundScoreEventAbsolute`; like `csoundScoreEvent` it has no
`return` statement. -/
def csoundScoreEventAbsolute (_internal : Call → Int) (type pfields numFields time_ofs : Nat) :
    Option Int × List GateEv :=
  (none, [.csoundLockMutex .API_lock,
    .call (.csoundScoreEventAbsoluteInternal type pfields numFields time_ofs),
    .csoundUnlockMutex .API_lock])

/-! ## Concrete spectral-frame inputs -/

/-- A channel database with one spectral-frame channel, named "a", whose
payload is at address 1 and whose lock is 9, usable in both directions. -/
def pvsChannel : ChannelDb where
  getChannelPtr := fun name k _ =>
    if name = [97] ∧ k = Kind.pvs then (CSOUND_SUCCESS, 1) else (CSOUND_ERROR, 0)
  getChannelLock := fun name => if name = [97] then some 9 else none

/-- A channel database whose lookup of "a" reports success but stores the NULL
pointer. -/
def nullPvsChannel : ChannelDb where
  getChannelPtr := fun name k _ =>
    if name = [97] ∧ k = Kind.pvs then (CSOUND_SUCCESS, 0) else (CSOUND_ERROR, 0)
  getChannelLock := fun name => if name = [97] then some 9 else none

/-- A payload with no frame yet. -/
def emptyPvs : PVSDATEXT := ⟨0, [], none⟩

/-- A source frame with bin count `N`: metadata and the `N+2` elements
1, 2, ..., N+2, held at address 500. -/
def sourceFrame (N : Nat) : PVSDATEXT :=
  ⟨N, [0, N, 4, N, 1, 0, 7], some ⟨500, (List.range (N + 2)).map (· + 1)⟩⟩

/-- A caller's frame with room for `n` elements, all zero, at address 600. -/
def destFrame (n : Nat) : PVSDATEXT := ⟨0, [], some ⟨600, List.replicate n 0⟩⟩

/-- Successive `csoundSetPvsChannel` calls on one channel, each with the
address the allocator would return, the content `ReAlloc` may add and the
source frame; the payload stores after each call. -/
def setPvsRun (db : ChannelDb) (name : List Nat) :
    List PVSDATEXT → List (Nat × List Nat × PVSDATEXT) → Except Fault (List (List PVSDATEXT))
  | _, [] => .ok []
  | pvs, (newAddr, junk, fin) :: rest =>
    match csoundSetPvsChannel db newAddr junk pvs fin name with
    | .error f => .error f
    | .ok (pvs1, _, _) =>
      match setPvsRun db name pvs1 rest with
      | .error f => .error f
      | .ok l => .ok (pvs1 :: l)

/-- The allocated element count of the frame of the payload at `p` (0 when
there is no frame), if there is a payload at `p`. -/
def frameAllocAt (p : Nat) (pvs : List PVSDATEXT) : Option Nat :=
  (pvs[p]?).map (fun f => match f.frame with
    | none => 0
    | some b => b.elems.length)

/-- The allocated element counts after each call of a run. -/
def allocsOf (p : Nat) (r : Except Fault (List (List PVSDATEXT))) : Option (List (Option Nat)) :=
  match r with
  | .error _ => none
  | .ok states => some (states.map (frameAllocAt p))

/-- The allocated element count of a payload's frame (0 when there is none). -/
def frameLen (f : PVSDATEXT) : Nat :=
  match f.frame with
  | none => 0
  | some b => b.elems.length

/-- A spectral-frame payload whose frame, when there is one, has at least
`N + 2` elements. -/
def validPvs (f : PVSDATEXT) : Prop :=
  f.frame = none ∨ f.N + 2 ≤ (frameLen f : Int)

instance (f : PVSDATEXT) : Decidable (validPvs f) := by
  unfold validPvs
  infer_instance

/-- A source frame the caller may pass: a bin count `N ≥ 0` with `N + 2` an
`int`, and a frame that is NULL or holds at least `N + 2` elements. -/
def validSource (fin : PVSDATEXT) : Prop :=
  0 ≤ fin.N ∧ fin.N + 2 < 2 ^ 31 ∧ (fin.frame = none ∨ fin.N + 2 ≤ (frameLen fin : Int))

instance (fin : PVSDATEXT) : Decidable (validSource fin) := by
  unfold validSource
  infer_instance

/-- How `csoundSetPvsChannel` treats the allocation, from one payload store to
the next: when the channel had no frame or a recorded `N` below the new one,
the allocated count is exactly the new `N + 2`; otherwise it is what it was. -/
def allocStep (p : Nat) (a b : List PVSDATEXT) : Prop :=
  ∃ fa fb, a[p]? = some fa ∧ b[p]? = some fb ∧
    ((fa.frame = none ∨ fa.N < fb.N) → (frameLen fb : Int) = fb.N + 2) ∧
    (¬ (fa.frame = none ∨ fa.N < fb.N) → frameLen fb = frameLen fa)

/-! ## Lemmas on the queue -/

theorem advance_lt {i : Nat} (h : i < API_MAX_QUEUE) : advance i = i + 1 := by
  unfold advance
  have h64 : i ≠ API_MAX_QUEUE := Nat.ne_of_lt h
  simp only [h64, ne_eq, not_false_eq_true, if_true]
  have : i + 1 < 2 ^ 32 := by
    have : API_MAX_QUEUE = 64 := rfl
    omega
  exact Nat.mod_eq_of_lt this

theorem memcpy_replicate (n : Nat) (src : List Nat) :
    memcpy (List.replicate n 0) 0 src = src ++ List.replicate (n - src.length) 0 := by
  simp [memcpy, List.drop_replicate]

theorem message_enqueue_ok (csound : CSOUND) (r : Request)
    (hwp : csound.msg_queue_wp < API_MAX_QUEUE) (h1 : r.argsiz ≤ 128)
    (h2 : r.argsiz ≤ r.args.length) :
    message_enqueue csound r.message r.args r.argsiz =
      .ok ⟨some ((queueOf csound).set csound.msg_queue_wp
            ⟨r.message, memcpy ((queueOf csound).getD csound.msg_queue_wp zeroEntry).args 0
              (r.args.take r.argsiz)⟩),
          csound.msg_queue_wp + 1, csound.msg_queue_rp⟩ := by
  have hlt : csound.msg_queue_wp < 2 ^ 32 := by
    have : API_MAX_QUEUE = 64 := rfl
    omega
  have hmod : csound.msg_queue_wp % 2 ^ 32 = csound.msg_queue_wp := Nat.mod_eq_of_lt hlt
  unfold message_enqueue
  simp only [hmod]
  rw [if_neg (Nat.not_le.mpr hwp), if_neg (by omega), advance_lt hwp]


theorem set_append_replicate {α : Type} (done : List α) (m : Nat) (z e : α) :
    (done ++ List.replicate (m + 1) z).set done.length e = done ++ e :: List.replicate m z := by
  induction done with
  | nil => simp [List.replicate_succ]
  | cons a as ih => simpa using ih

theorem getD_append_replicate {α : Type} (done : List α) (m : Nat) (z d : α) :
    (done ++ List.replicate (m + 1) z).getD done.length d = z := by
  induction done with
  | nil => simp [List.replicate_succ]
  | cons a as ih => simpa using ih

theorem entryOf_eq (r : Request) (h2 : r.argsiz ≤ r.args.length) :
    (⟨r.message, memcpy zeroEntry.args 0 (r.args.take r.argsiz)⟩ : message_queue_t) = entryOf r := by
  have hl : (r.args.take r.argsiz).length = r.argsiz := by
    simp [List.length_take, h2]
  unfold entryOf zeroEntry
  rw [memcpy_replicate, hl]

theorem enqueue_all_ok (rs : List Request) :
    ∀ (csound : CSOUND) (done : List message_queue_t),
      queueOf csound = done ++ List.replicate (API_MAX_QUEUE - done.length) zeroEntry →
      csound.msg_queue_wp = done.length →
      done.length + rs.length ≤ API_MAX_QUEUE →
      (∀ r ∈ rs, r.argsiz ≤ 128 ∧ r.argsiz ≤ r.args.length) →
      ∃ s, enqueue_all csound rs = .ok s ∧
        queueOf s = done ++ rs.map entryOf ++
          List.replicate (API_MAX_QUEUE - (done.length + rs.length)) zeroEntry ∧
        s.msg_queue_wp = done.length + rs.length ∧
        s.msg_queue_rp = csound.msg_queue_rp ∧
        (rs ≠ [] → s.msg_queue = some (queueOf s)) ∧ (rs = [] → s = csound) := by
  induction rs with
  | nil =>
    intro csound done hq hwp _ _
    exact ⟨csound, rfl, by simpa using hq, by simpa using hwp, rfl, by simp, by simp⟩
  | cons r rs ih =>
    intro csound done hq hwp hlen hv
    have hr := hv r (List.mem_cons_self r rs)
    have hlen0 : done.length + (rs.length + 1) ≤ API_MAX_QUEUE := by simpa using hlen
    have hk : done.length < API_MAX_QUEUE := by omega
    have hl1 : (done ++ [entryOf r]).length = done.length + 1 := by simp
    obtain ⟨m, hm⟩ : ∃ m, API_MAX_QUEUE - done.length = m + 1 :=
      ⟨API_MAX_QUEUE - done.length - 1, by omega⟩
    have hstep := message_enqueue_ok csound r (by rw [hwp]; exact hk) hr.1 hr.2
    rw [hq, hwp, hm, getD_append_replicate, set_append_replicate, entryOf_eq r hr.2] at hstep
    have hq1 : queueOf ⟨some (done ++ entryOf r :: List.replicate m zeroEntry),
        done.length + 1, csound.msg_queue_rp⟩ =
        (done ++ [entryOf r]) ++
          List.replicate (API_MAX_QUEUE - (done ++ [entryOf r]).length) zeroEntry := by
      have : API_MAX_QUEUE - (done ++ [entryOf r]).length = m := by
        rw [hl1]
        omega
      rw [this]
      simp [queueOf]
    obtain ⟨s, hs, hqs, hwps, hrps, hsome, _⟩ := ih _ (done ++ [entryOf r]) hq1
      (by rw [hl1]) (by rw [hl1]; omega)
      (fun x hx => hv x (List.mem_cons_of_mem r hx))
    rw [hl1] at hqs hwps
    refine ⟨s, ?_, ?_, ?_, ?_, ?_, ?_⟩
    · simp only [enqueue_all, hstep]
      exact hs
    · rw [hqs]
      have e1 : done.length + 1 + rs.length = done.length + (r :: rs).length := by
        simp only [List.length_cons]
        omega
      rw [e1]
      simp
    · rw [hwps]
      simp only [List.length_cons]
      omega
    · rw [hrps]
    · intro _
      cases rs with
      | nil =>
        simp only [enqueue_all] at hs
        cases hs
        simp [queueOf]
      | cons r2 rs2 => exact hsome (by simp)
    · intro h
      cases h


theorem getD_append_cons {α : Type} (pre : List α) (e : α) (rest : List α) (d : α) :
    (pre ++ e :: rest).getD pre.length d = e := by
  induction pre with
  | nil => simp
  | cons a as ih => simpa using ih

theorem dequeue_loop_run (abi : ABI) (es : List message_queue_t) :
    ∀ (pre post : List message_queue_t) (fuel : Nat),
      pre.length + es.length ≤ API_MAX_QUEUE → es.length + 1 ≤ fuel →
      dequeue_loop abi (pre ++ es ++ post) (pre.length + es.length) fuel pre.length =
        .ok (pre.length + es.length, callsFor abi es) := by
  induction es with
  | nil =>
    intro pre post fuel _ hf
    obtain ⟨f, rfl⟩ : ∃ f, fuel = f + 1 := ⟨fuel - 1, by simp at hf; omega⟩
    simp [dequeue_loop, callsFor]
  | cons e es ih =>
    intro pre post fuel hlen hf
    have hlen0 : pre.length + (es.length + 1) ≤ API_MAX_QUEUE := by simpa using hlen
    have hf0 : es.length + 1 + 1 ≤ fuel := by simpa using hf
    obtain ⟨f, rfl⟩ : ∃ f, fuel = f + 1 := ⟨fuel - 1, by omega⟩
    have hk : pre.length < API_MAX_QUEUE := by omega
    have hl1 : (pre ++ [e]).length = pre.length + 1 := by simp
    have hne : ¬ pre.length = pre.length + (e :: es).length := by
      simp only [List.length_cons]
      omega
    have hih := ih (pre ++ [e]) post f (by rw [hl1]; omega) (by omega)
    rw [hl1] at hih
    have hq : pre ++ [e] ++ es ++ post = pre ++ e :: (es ++ post) := by simp
    have hw : pre.length + 1 + es.length = pre.length + (e :: es).length := by
      simp only [List.length_cons]
      omega
    rw [hq, hw] at hih
    have hq2 : pre ++ e :: es ++ post = pre ++ e :: (es ++ post) := by simp
    rw [hq2]
    unfold dequeue_loop
    rw [if_neg hne, if_neg (Nat.not_le.mpr hk), advance_lt hk]
    simp only [getD_append_cons, hih, callsFor]

theorem dequeue_loop_self (abi : ABI) (q : List message_queue_t) (wp fuel : Nat) :
    dequeue_loop abi q wp (fuel + 1) wp = .ok (wp, []) := by
  simp [dequeue_loop]

theorem dequeue_loop_fuel (abi : ABI) (q : List message_queue_t) (wp : Nat) :
    ∀ (fuel rp : Nat), API_MAX_QUEUE + 1 - rp + 1 ≤ fuel →
      dequeue_loop abi q wp fuel rp ≠ .error .fuel := by
  intro fuel
  induction fuel with
  | zero =>
    intro rp h
    omega
  | succ f ih =>
    intro rp h
    unfold dequeue_loop
    by_cases h1 : rp = wp
    · simp [h1]
    · rw [if_neg h1]
      by_cases h2 : API_MAX_QUEUE ≤ rp
      · simp [h2]
      · rw [if_neg h2]
        have hk : rp < API_MAX_QUEUE := Nat.not_le.mp h2
        have hrec := ih (advance rp) (by rw [advance_lt hk]; omega)
        generalize dequeue_loop abi q wp f (advance rp) = res at hrec
        cases res with
        | error g =>
          simp only [ne_eq, Except.error.injEq] at hrec ⊢
          exact hrec
        | ok p => simp

theorem message_dequeue_total (abi : ABI) (csound : CSOUND) :
    message_dequeue abi csound ≠ .error .fuel := by
  unfold message_dequeue
  cases hq : csound.msg_queue with
  | none => simp
  | some q =>
    simp only
    have hrec := dequeue_loop_fuel abi q (csound.msg_queue_wp % 2 ^ 32) (API_MAX_QUEUE + 2)
      (csound.msg_queue_rp % 2 ^ 32) (by omega)
    generalize dequeue_loop abi q (csound.msg_queue_wp % 2 ^ 32) (API_MAX_QUEUE + 2)
      (csound.msg_queue_rp % 2 ^ 32) = res at hrec
    cases res with
    | error g =>
      simp only [ne_eq, Except.error.injEq] at hrec ⊢
      exact hrec
    | ok p => simp

theorem drain_fresh (abi : ABI) (reqs : List Request) (hn : reqs.length ≤ API_MAX_QUEUE)
    (hv : ∀ r ∈ reqs, r.argsiz ≤ 128 ∧ r.argsiz ≤ r.args.length) :
    ∃ s, enqueue_all fresh reqs = .ok s ∧ s.msg_queue_wp = reqs.length ∧
      s.msg_queue_rp = 0 ∧
      message_dequeue abi s = .ok (s, callsFor abi (reqs.map entryOf)) := by
  obtain ⟨s, hs, hq, hwp, hrp, hsome, hnil⟩ := enqueue_all_ok reqs fresh [] (by simp [queueOf, fresh])
    (by simp [fresh]) (by simpa using hn) hv
  simp only [List.length_nil, Nat.zero_add, List.nil_append] at hq hwp
  refine ⟨s, hs, hwp, by rw [hrp]; rfl, ?_⟩
  cases reqs with
  | nil =>
    rw [hnil rfl]
    simp [message_dequeue, fresh, callsFor]
  | cons r rs =>
    have hsq := hsome (by simp)
    have hrun := dequeue_loop_run abi ((r :: rs).map entryOf) []
      (List.replicate (API_MAX_QUEUE - (r :: rs).length) zeroEntry) (API_MAX_QUEUE + 2)
      (by simpa using hn) (by simp only [List.length_map]; omega)
    simp only [List.length_nil, Nat.zero_add, List.nil_append, List.length_map] at hrun
    rw [← hq] at hrun
    have hrp0 : s.msg_queue_rp = 0 := by rw [hrp]; rfl
    have hlt : (r :: rs).length < 2 ^ 32 := by
      have : API_MAX_QUEUE = 64 := rfl
      omega
    generalize queueOf s = q at hsq hq hrun
    cases s with
    | mk a b c =>
      simp only at hsq hwp hrp0
      subst hsq hwp hrp0
      unfold message_dequeue
      simp only [Nat.zero_mod, Nat.mod_eq_of_lt hlt, hrun]

theorem decode_isSome (abi : ABI) (m : Int) (args : List Nat) (h0 : 0 ≤ m) (h6 : m ≤ 6) :
    ∃ c, decode abi m args = some c := by
  have hcases : m = 0 ∨ m = 1 ∨ m = 2 ∨ m = 3 ∨ m = 4 ∨ m = 5 ∨ m = 6 := by omega
  rcases hcases with h | h | h | h | h | h | h <;> subst h <;> simp [decode]

theorem callsFor_map (abi : ABI) (reqs : List Request)
    (hv : ∀ r ∈ reqs, 0 ≤ r.message ∧ r.message ≤ 6) :
    (callsFor abi (reqs.map entryOf)).map some =
      reqs.map (fun r => decode abi r.message (entryOf r).args) := by
  induction reqs with
  | nil => rfl
  | cons r rs ih =>
    have hr := hv r (List.mem_cons_self r rs)
    obtain ⟨c, hc⟩ := decode_isSome abi r.message (entryOf r).args hr.1 hr.2
    have hm : (entryOf r).message = r.message := rfl
    simp only [List.map_cons, callsFor, hm, hc, Option.toList, List.singleton_append]
    rw [ih (fun x hx => hv x (List.mem_cons_of_mem r hx))]


/-- C1. From an engine whose queue has never been used, any `n ≤ 64` requests
(tag in the enumeration, `argsiz` bytes available in the source buffer and in
the 128-byte block) are all accepted by `message_enqueue`, and one following
`message_dequeue` makes exactly `n` internal calls: the `i`-th call is the one
the `i`-th request's tag selects, decoded from the `i`-th request's argument
bytes (laid over the zeroed block). -/
theorem message_dequeue_fifo (abi : ABI) (reqs : List Request)
    (hn : reqs.length ≤ 64)
    (hv : ∀ r ∈ reqs, 0 ≤ r.message ∧ r.message ≤ 6 ∧ r.argsiz ≤ 128 ∧
      r.argsiz ≤ r.args.length) :
    ∃ s s1 calls, enqueue_all fresh reqs = .ok s ∧
      message_dequeue abi s = .ok (s1, calls) ∧
      calls.length = reqs.length ∧
      calls.map some = reqs.map (fun r =>
        decode abi r.message (r.args.take r.argsiz ++ List.replicate (128 - r.argsiz) 0)) := by
  obtain ⟨s, hs, _, _, hd⟩ := drain_fresh abi reqs hn (fun r hr => (hv r hr).2.2)
  have hmap := callsFor_map abi reqs (fun r hr => ⟨(hv r hr).1, (hv r hr).2.1⟩)
  refine ⟨s, s, _, hs, hd, ?_, hmap⟩
  have := congrArg List.length hmap
  simpa using this

theorem message_dequeue_fifo_witness :
    ∃ s s1 calls, enqueue_all fresh [reqTableSet, reqInputMessage] = .ok s ∧
      message_dequeue lp64Double s = .ok (s1, calls) ∧
      calls.length = [reqTableSet, reqInputMessage].length ∧
      calls.map some = [reqTableSet, reqInputMessage].map (fun r =>
        decode lp64Double r.message
          (r.args.take r.argsiz ++ List.replicate (128 - r.argsiz) 0)) :=
  message_dequeue_fifo lp64Double [reqTableSet, reqInputMessage] (by decide) (by decide)


/-- C2. `message_dequeue` never stores its read cursor: after one table-set
request is enqueued on a fresh engine and drained, the stored read index is
still 0 while the write index is 1, so a second `message_dequeue` with no
enqueue in between makes the same internal call again, and after a second
batch (one input message) the next `message_dequeue` makes the calls of both
batches. -/
theorem message_dequeue_replays :
    ∃ s1 s2 s3,
      enqueue_all fresh [reqTableSet] = .ok s1 ∧
      message_dequeue lp64Double s1 =
        .ok (s2, [.csoundTableSetInternal 3 5 4612811918334230528]) ∧
      s2.msg_queue_rp = 0 ∧ s2.msg_queue_wp = 1 ∧
      message_dequeue lp64Double s2 =
        .ok (s2, [.csoundTableSetInternal 3 5 4612811918334230528]) ∧
      enqueue_all s2 [reqInputMessage] = .ok s3 ∧
      callsOf (message_dequeue lp64Double s3) =
        some [.csoundTableSetInternal 3 5 4612811918334230528,
              .csoundInputMessageInternal 4096] :=
  ⟨_, _, _, rfl, rfl, rfl, rfl, rfl, rfl, rfl⟩

/-- C5. The write index leaves `[0, 64)`: after 64 accepted requests on a fresh
engine it is 64, not `(63 + 1) mod 64 = 0`, the read cursor of the following
`message_dequeue` ends at 64, and a 65th `message_enqueue` addresses
`msg_queue[64]`, one entry past the 64 allocated ones. -/
theorem message_enqueue_overrun :
    ∃ s, enqueue_all fresh (List.replicate 64 reqInputMessage) = .ok s ∧
      s.msg_queue_wp = 64 ∧ advance 63 = 64 ∧
      (∃ calls, dequeue_loop lp64Double (queueOf s) 64 (API_MAX_QUEUE + 2) 0 = .ok (64, calls)) ∧
      message_enqueue s reqInputMessage.message reqInputMessage.args reqInputMessage.argsiz =
        .error (.outOfBounds 64) := by
  obtain ⟨s, hs, hq, hwp, _, _, _⟩ := enqueue_all_ok (List.replicate 64 reqInputMessage) fresh []
    (by simp [queueOf, fresh]) (by simp [fresh]) (by simp) (by
      intro r hr
      rw [List.eq_of_mem_replicate hr]
      decide)
  simp only [List.length_nil, Nat.zero_add, List.nil_append, List.length_replicate] at hq hwp
  refine ⟨s, hs, hwp, by decide, ?_, ?_⟩
  · rw [hq]
    have hrun := dequeue_loop_run lp64Double ((List.replicate 64 reqInputMessage).map entryOf) []
      (List.replicate (API_MAX_QUEUE - 64) zeroEntry) (API_MAX_QUEUE + 2) (by simp) (by simp)
    simp only [List.length_nil, Nat.zero_add, List.nil_append, List.length_map,
      List.length_replicate] at hrun
    exact ⟨_, hrun⟩
  · unfold message_enqueue
    rw [hwp]
    rfl

/-- C6. Draining an empty queue is a no-op: when the queue storage was never
allocated, or the read index equals the write index (32-bit indices),
`message_dequeue` returns, makes no internal call and leaves the engine state
(both indices and every slot) as it was. -/
theorem message_dequeue_empty (abi : ABI) (csound : CSOUND)
    (hwp : csound.msg_queue_wp < 2 ^ 32)
    (h : csound.msg_queue = none ∨ csound.msg_queue_rp = csound.msg_queue_wp) :
    message_dequeue abi csound = .ok (csound, []) := by
  cases csound with
  | mk q wp rp =>
    cases q with
    | none => rfl
    | some q =>
      simp only at hwp h
      have hrp : rp = wp := by
        rcases h with h | h
        · cases h
        · exact h
      subst hrp
      have hmod : rp % 2 ^ 32 = rp := Nat.mod_eq_of_lt hwp
      simp only [message_dequeue, hmod]
      rw [dequeue_loop_self abi q rp (API_MAX_QUEUE + 1)]

theorem message_dequeue_empty_witness :
    (7 : Nat) < 2 ^ 32 ∧
    message_dequeue lp64Double ⟨some (List.replicate 64 zeroEntry), 7, 7⟩ =
      .ok (⟨some (List.replicate 64 zeroEntry), 7, 7⟩, []) :=
  ⟨by decide, message_dequeue_empty lp64Double ⟨some (List.replicate 64 zeroEntry), 7, 7⟩
    (by decide) (Or.inr rfl)⟩

/-! ## Lemmas on blocks of bytes -/

theorem length_leBytes (k : Nat) : ∀ x, (leBytes k x).length = k := by
  induction k with
  | zero => intro x; rfl
  | succ k ih => intro x; simp [leBytes, ih]

theorem leValue_leBytes (k : Nat) : ∀ x, leValue (leBytes k x) = x % 256 ^ k := by
  induction k with
  | zero => intro x; simp [leBytes, leValue, Nat.mod_one]
  | succ k ih =>
    intro x
    simp only [leBytes, leValue, ih]
    rw [pow_succ, Nat.mul_comm (256 ^ k) 256, Nat.mod_mul]

theorem length_vla (junk : List Nat) (n : Nat) : (vla junk n).length = n := by
  simp [vla]

theorem length_memcpy (dst src : List Nat) (off : Nat) (h : off + src.length ≤ dst.length) :
    (memcpy dst off src).length = dst.length := by
  simp only [memcpy, List.length_append, List.length_take, List.length_drop]
  omega

theorem bytesAt_memcpy_same (dst src : List Nat) (off : Nat) (h : off + src.length ≤ dst.length) :
    bytesAt (memcpy dst off src) off src.length = src := by
  have h1 : (dst.take off).length = off := by
    rw [List.length_take]
    omega
  apply List.ext_getElem?
  intro i
  simp only [bytesAt, memcpy, List.getElem?_take, List.getElem?_drop, List.append_assoc]
  by_cases hi : i < src.length
  · simp only [hi, if_true]
    rw [List.getElem?_append_right (by rw [h1]; omega), h1,
      List.getElem?_append_left (by omega)]
    congr 1
    omega
  · simp only [hi, if_false]
    rw [List.getElem?_eq_none (by omega)]

theorem bytesAt_memcpy_before (dst src : List Nat) (off o k : Nat) (h : o + k ≤ off)
    (h2 : off ≤ dst.length) :
    bytesAt (memcpy dst off src) o k = bytesAt dst o k := by
  apply List.ext_getElem?
  intro i
  simp only [bytesAt, memcpy, List.getElem?_take, List.getElem?_drop, List.append_assoc]
  by_cases hi : i < k
  · simp only [hi, if_true]
    rw [List.getElem?_append_left (by rw [List.length_take]; omega), List.getElem?_take]
    simp only [show o + i < off by omega, if_true]
  · simp [hi]

theorem bytesAt_memcpy_after (dst src : List Nat) (off o k : Nat) (h : off + src.length ≤ o)
    (h2 : off + src.length ≤ dst.length) :
    bytesAt (memcpy dst off src) o k = bytesAt dst o k := by
  have h1 : (dst.take off ++ src).length = off + src.length := by
    rw [List.length_append, List.length_take]
    omega
  apply List.ext_getElem?
  intro i
  simp only [bytesAt, memcpy, List.getElem?_take, List.getElem?_drop]
  by_cases hi : i < k
  · simp only [hi, if_true]
    rw [List.getElem?_append_right (by rw [h1]; omega), h1, List.getElem?_drop]
    congr 1
    omega
  · simp [hi]

theorem bytesAt_append_left (a b : List Nat) (o k : Nat) (h : o + k ≤ a.length) :
    bytesAt (a ++ b) o k = bytesAt a o k := by
  apply List.ext_getElem?
  intro i
  simp only [bytesAt, List.getElem?_take, List.getElem?_drop]
  by_cases hi : i < k
  · simp only [hi, if_true]
    rw [List.getElem?_append_left (by omega)]
  · simp [hi]

theorem load_append_left (a b : List Nat) (o k : Nat) (h : o + k ≤ a.length) :
    load (a ++ b) o k = load a o k := by
  unfold load
  rw [bytesAt_append_left a b o k h]

/-- What one `store` into a local array of `n` bytes does. -/
theorem store_spec (args : List Nat) (n : Nat) (hlen : args.length = n) (off k x : Nat)
    (h : off + k ≤ n) :
    ∃ out, store args off k x = .ok out ∧ out.length = n ∧
      load out off k = x % 256 ^ k ∧
      (∀ o j, o + j ≤ off ∨ off + k ≤ o → load out o j = load args o j) := by
  have hk := length_leBytes k x
  refine ⟨memcpy args off (leBytes k x), ?_, ?_, ?_, ?_⟩
  · unfold store
    rw [if_pos (by omega)]
  · rw [length_memcpy _ _ _ (by omega), hlen]
  · unfold load
    have := bytesAt_memcpy_same args (leBytes k x) off (by omega)
    rw [hk] at this
    rw [this, leValue_leBytes]
  · intro o j hoj
    unfold load
    rcases hoj with hb | ha
    · rw [bytesAt_memcpy_before _ _ _ _ _ hb (by omega)]
    · rw [bytesAt_memcpy_after _ _ _ _ _ (by omega) (by omega)]

/-- One request enqueued on a fresh engine, then drained. -/
theorem drain_one (abi : ABI) (tag : Int) (args : List Nat) (n : Nat) (hlen : args.length = n)
    (hn : n ≤ 128) :
    thenDrain abi (message_enqueue fresh tag args n) =
      some (decode abi tag (args ++ List.replicate (128 - n) 0)).toList := by
  obtain ⟨s, hs, _, _, hd⟩ := drain_fresh abi [⟨tag, args, n⟩] (by simp) (by
    intro r hr
    simp only [List.mem_singleton] at hr
    subst hr
    exact ⟨hn, by simp only [hlen]; exact Nat.le_refl n⟩)
  simp only [enqueue_all] at hs
  cases hm : message_enqueue fresh tag args n with
  | error f => simp [hm] at hs
  | ok s1 =>
    simp only [hm, Except.ok.injEq] at hs
    subst hs
    simp only [thenDrain, hd, callsOf, List.map_cons, List.map_nil, callsFor, entryOf,
      List.append_nil]
    rw [← hlen, List.take_length]

theorem decode_INPUT_MESSAGE (abi : ABI) (args : List Nat) :
    decode abi INPUT_MESSAGE args =
      some (.csoundInputMessageInternal (load args 0 abi.sizeofPtr)) := rfl

theorem decode_READ_SCORE (abi : ABI) (args : List Nat) :
    decode abi READ_SCORE args =
      some (.csoundReadScoreInternal (load args 0 abi.sizeofPtr)) := rfl

theorem decode_SCORE_EVENT (abi : ABI) (args : List Nat) :
    decode abi SCORE_EVENT args =
      some (.csoundScoreEventInternal (load args 0 1) (load args 1 abi.sizeofPtr)
        (load args (1 + abi.sizeofPtr) abi.sizeofLong)) := rfl

theorem decode_SCORE_EVENT_ABS (abi : ABI) (args : List Nat) :
    decode abi SCORE_EVENT_ABS args =
      some (.csoundScoreEventAbsoluteInternal (load args 0 1) (load args 1 abi.sizeofPtr)
        (load args (1 + abi.sizeofPtr) abi.sizeofLong)
        (load args (1 + abi.sizeofPtr + abi.sizeofLong) sizeofDouble)) := rfl

theorem decode_TABLE_COPY_OUT (abi : ABI) (args : List Nat) :
    decode abi TABLE_COPY_OUT args =
      some (.csoundTableCopyOutInternal (load args 0 sizeofInt)
        (load args sizeofInt abi.sizeofPtr)) := rfl

theorem decode_TABLE_COPY_IN (abi : ABI) (args : List Nat) :
    decode abi TABLE_COPY_IN args =
      some (.csoundTableCopyInInternal (load args 0 sizeofInt)
        (load args sizeofInt abi.sizeofPtr)) := rfl

theorem decode_TABLE_SET (abi : ABI) (args : List Nat) :
    decode abi TABLE_SET args =
      some (.csoundTableSetInternal (load args 0 sizeofInt) (load args sizeofInt sizeofInt)
        (load args (2 * sizeofInt) abi.sizeofMYFLT)) := rfl

theorem tableSet_roundtrip (abi : ABI) (junk : List Nat)
    (hf : 2 * sizeofInt + abi.sizeofMYFLT ≤ 128) (table index value : Nat)
    (ht : table < 256 ^ sizeofInt) (hi : index < 256 ^ sizeofInt)
    (hv : value < 256 ^ abi.sizeofMYFLT) :
    thenDrain abi (csoundTableSet_enqueue abi junk fresh table index value) =
      some [.csoundTableSetInternal table index value] := by
  have hI : sizeofInt = 4 := rfl
  obtain ⟨a1, h1, l1, v1, _⟩ := store_spec (vla junk (2 * sizeofInt + abi.sizeofMYFLT)) _
    (length_vla _ _) 0 sizeofInt table (by omega)
  obtain ⟨a2, h2, l2, v2, f2⟩ := store_spec a1 _ l1 sizeofInt sizeofInt index (by omega)
  obtain ⟨a3, h3, l3, v3, f3⟩ := store_spec a2 _ l2 (2 * sizeofInt) abi.sizeofMYFLT value
    (by omega)
  unfold csoundTableSet_enqueue
  simp only [bind, Except.bind, h1, h2, h3]
  rw [drain_one abi _ a3 _ l3 hf]
  have e1 : load a3 0 sizeofInt = table := by
    rw [f3 0 sizeofInt (Or.inl (by omega)), f2 0 sizeofInt (Or.inl (by omega)), v1,
      Nat.mod_eq_of_lt ht]
  have e2 : load a3 sizeofInt sizeofInt = index := by
    rw [f3 sizeofInt sizeofInt (Or.inl (by omega)), v2, Nat.mod_eq_of_lt hi]
  have e3 : load a3 (2 * sizeofInt) abi.sizeofMYFLT = value := by
    rw [v3, Nat.mod_eq_of_lt hv]
  rw [decode_TABLE_SET]
  simp only [Option.toList]
  rw [load_append_left a3 _ 0 sizeofInt (by omega),
    load_append_left a3 _ sizeofInt sizeofInt (by omega),
    load_append_left a3 _ (2 * sizeofInt) abi.sizeofMYFLT (by omega), e1, e2, e3]

theorem tableCopyOut_roundtrip (abi : ABI) (junk : List Nat)
    (hp : sizeofInt + abi.sizeofPtr ≤ 128) (table ptable : Nat)
    (ht : table < 256 ^ sizeofInt) (hpt : ptable < 256 ^ abi.sizeofPtr) :
    thenDrain abi (csoundTableCopyOut_enqueue abi junk fresh table ptable) =
      some [.csoundTableCopyOutInternal table ptable] := by
  have hI : sizeofInt = 4 := rfl
  obtain ⟨a1, h1, l1, v1, _⟩ := store_spec (vla junk (sizeofInt + abi.sizeofPtr)) _
    (length_vla _ _) 0 sizeofInt table (by omega)
  obtain ⟨a2, h2, l2, v2, f2⟩ := store_spec a1 _ l1 sizeofInt abi.sizeofPtr ptable (by omega)
  unfold csoundTableCopyOut_enqueue
  simp only [bind, Except.bind, h1, h2]
  rw [drain_one abi _ a2 _ l2 hp, decode_TABLE_COPY_OUT]
  simp only [Option.toList]
  rw [load_append_left a2 _ 0 sizeofInt (by omega),
    load_append_left a2 _ sizeofInt abi.sizeofPtr (by omega),
    f2 0 sizeofInt (Or.inl (by omega)), v1, v2, Nat.mod_eq_of_lt ht, Nat.mod_eq_of_lt hpt]

theorem tableCopyIn_roundtrip (abi : ABI) (junk : List Nat)
    (hp : sizeofInt + abi.sizeofPtr ≤ 128) (table ptable : Nat)
    (ht : table < 256 ^ sizeofInt) (hpt : ptable < 256 ^ abi.sizeofPtr) :
    thenDrain abi (csoundTableCopyIn_enqueue abi junk fresh table ptable) =
      some [.csoundTableCopyInInternal table ptable] := by
  have hI : sizeofInt = 4 := rfl
  obtain ⟨a1, h1, l1, v1, _⟩ := store_spec (vla junk (sizeofInt + abi.sizeofPtr)) _
    (length_vla _ _) 0 sizeofInt table (by omega)
  obtain ⟨a2, h2, l2, v2, f2⟩ := store_spec a1 _ l1 sizeofInt abi.sizeofPtr ptable (by omega)
  unfold csoundTableCopyIn_enqueue
  simp only [bind, Except.bind, h1, h2]
  rw [drain_one abi _ a2 _ l2 hp, decode_TABLE_COPY_IN]
  simp only [Option.toList]
  rw [load_append_left a2 _ 0 sizeofInt (by omega),
    load_append_left a2 _ sizeofInt abi.sizeofPtr (by omega),
    f2 0 sizeofInt (Or.inl (by omega)), v1, v2, Nat.mod_eq_of_lt ht, Nat.mod_eq_of_lt hpt]

theorem inputMessage_roundtrip (abi : ABI) (junk : List Nat)
    (hp : abi.sizeofPtr ≤ 128) (message : Nat) (hm : message < 256 ^ abi.sizeofPtr) :
    thenDrain abi (csoundInputMessage_enqueue abi junk fresh message) =
      some [.csoundInputMessageInternal message] := by
  obtain ⟨a1, h1, l1, v1, _⟩ := store_spec (vla junk abi.sizeofPtr) _
    (length_vla _ _) 0 abi.sizeofPtr message (by omega)
  unfold csoundInputMessage_enqueue
  simp only [bind, Except.bind, h1]
  rw [drain_one abi _ a1 _ l1 hp, decode_INPUT_MESSAGE]
  simp only [Option.toList]
  rw [load_append_left a1 _ 0 abi.sizeofPtr (by omega), v1, Nat.mod_eq_of_lt hm]

theorem readScore_roundtrip (abi : ABI) (junk : List Nat)
    (hp : abi.sizeofPtr ≤ 128) (message : Nat) (hm : message < 256 ^ abi.sizeofPtr) :
    thenDrain abi (csoundReadScore_enqueue abi junk fresh message) =
      some [.csoundReadScoreInternal message] := by
  obtain ⟨a1, h1, l1, v1, _⟩ := store_spec (vla junk abi.sizeofPtr) _
    (length_vla _ _) 0 abi.sizeofPtr message (by omega)
  unfold csoundReadScore_enqueue
  simp only [bind, Except.bind, h1]
  rw [drain_one abi _ a1 _ l1 hp, decode_READ_SCORE]
  simp only [Option.toList]
  rw [load_append_left a1 _ 0 abi.sizeofPtr (by omega), v1, Nat.mod_eq_of_lt hm]

theorem scoreEvent_roundtrip (abi : ABI) (junk : List Nat)
    (hsame : abi.sizeofMYFLT = abi.sizeofPtr)
    (hp : 1 + abi.sizeofPtr + abi.sizeofLong ≤ 128) (type pfields numFields : Nat)
    (ht : type < 256 ^ 1) (hpf : pfields < 256 ^ abi.sizeofPtr)
    (hnf : numFields < 256 ^ abi.sizeofLong) :
    thenDrain abi (csoundScoreEvent_enqueue abi junk fresh type pfields numFields) =
      some [.csoundScoreEventInternal type pfields numFields] := by
  obtain ⟨a1, h1, l1, v1, _⟩ := store_spec (vla junk (1 + abi.sizeofPtr + abi.sizeofLong)) _
    (length_vla _ _) 0 1 type (by omega)
  obtain ⟨a2, h2, l2, v2, f2⟩ := store_spec a1 _ l1 1 abi.sizeofPtr pfields (by omega)
  obtain ⟨a3, h3, l3, v3, f3⟩ := store_spec a2 _ l2 (1 + abi.sizeofPtr) abi.sizeofLong numFields
    (by omega)
  unfold csoundScoreEvent_enqueue
  simp only [bind, Except.bind, hsame, h1, h2, h3]
  rw [drain_one abi _ a3 _ l3 hp, decode_SCORE_EVENT]
  simp only [Option.toList]
  rw [load_append_left a3 _ 0 1 (by omega),
    load_append_left a3 _ 1 abi.sizeofPtr (by omega),
    load_append_left a3 _ (1 + abi.sizeofPtr) abi.sizeofLong (by omega),
    f3 0 1 (Or.inl (by omega)), f2 0 1 (Or.inl (by omega)), v1,
    f3 1 abi.sizeofPtr (Or.inl (by omega)), v2, v3,
    Nat.mod_eq_of_lt ht, Nat.mod_eq_of_lt hpf, Nat.mod_eq_of_lt hnf]

theorem scoreEventAbsolute_roundtrip (abi : ABI) (junk : List Nat)
    (hsame : abi.sizeofMYFLT = abi.sizeofPtr)
    (hp : 1 + abi.sizeofPtr + abi.sizeofLong + sizeofDouble ≤ 128)
    (type pfields numFields time_ofs : Nat)
    (ht : type < 256 ^ 1) (hpf : pfields < 256 ^ abi.sizeofPtr)
    (hnf : numFields < 256 ^ abi.sizeofLong) (hto : time_ofs < 256 ^ sizeofDouble) :
    thenDrain abi (csoundScoreEventAbsolute_enqueue abi junk fresh type pfields numFields
      time_ofs) = some [.csoundScoreEventAbsoluteInternal type pfields numFields time_ofs] := by
  have hD : sizeofDouble = 8 := rfl
  obtain ⟨a1, h1, l1, v1, _⟩ := store_spec
    (vla junk (1 + abi.sizeofPtr + abi.sizeofLong + sizeofDouble)) _
    (length_vla _ _) 0 1 type (by omega)
  obtain ⟨a2, h2, l2, v2, f2⟩ := store_spec a1 _ l1 1 abi.sizeofPtr pfields (by omega)
  obtain ⟨a3, h3, l3, v3, f3⟩ := store_spec a2 _ l2 (1 + abi.sizeofPtr) abi.sizeofLong numFields
    (by omega)
  obtain ⟨a4, h4, l4, v4, f4⟩ := store_spec a3 _ l3 (1 + abi.sizeofPtr + abi.sizeofLong)
    sizeofDouble time_ofs (by omega)
  unfold csoundScoreEventAbsolute_enqueue
  simp only [bind, Except.bind, hsame, h1, h2, h3, h4]
  rw [drain_one abi _ a4 _ l4 hp, decode_SCORE_EVENT_ABS]
  simp only [Option.toList]
  rw [load_append_left a4 _ 0 1 (by omega),
    load_append_left a4 _ 1 abi.sizeofPtr (by omega),
    load_append_left a4 _ (1 + abi.sizeofPtr) abi.sizeofLong (by omega),
    load_append_left a4 _ (1 + abi.sizeofPtr + abi.sizeofLong) sizeofDouble (by omega),
    f4 0 1 (Or.inl (by omega)), f3 0 1 (Or.inl (by omega)), f2 0 1 (Or.inl (by omega)), v1,
    f4 1 abi.sizeofPtr (Or.inl (by omega)), f3 1 abi.sizeofPtr (Or.inl (by omega)), v2,
    f4 (1 + abi.sizeofPtr) abi.sizeofLong (Or.inl (by omega)), v3, v4,
    Nat.mod_eq_of_lt ht, Nat.mod_eq_of_lt hpf, Nat.mod_eq_of_lt hnf, Nat.mod_eq_of_lt hto]

/-- C3. With `MYFLT` of 4 bytes (LP64, no `USE_DOUBLE`) the score-event
arguments do not survive the queue: `csoundScoreEvent_enqueue` and
`csoundScoreEventAbsolute_enqueue` store the field count at
`args+1+sizeof(MYFLT)`, over the upper half of the field-array pointer, while
`message_dequeue` reads it at `args+1+sizeof(MYFLT *)`. For type `'i'` (105),
pointer `0x7F0000001000`, count 3 (and offset 1.0) the internal function is
called with pointer `0x300001000`, count 0 (and offset bits `0x3FF00000`).
With `MYFLT` of 8 bytes the two offsets agree and every type, pointer, count
and offset is passed on unchanged. -/
theorem scoreEvent_enqueue_float_layout :
    thenDrain lp64Float (csoundScoreEvent_enqueue lp64Float [] fresh 105 139637976731648 3) =
      some [.csoundScoreEventInternal 105 12884905984 0] ∧
    thenDrain lp64Float (csoundScoreEventAbsolute_enqueue lp64Float [] fresh 105
        139637976731648 3 4607182418800017408) =
      some [.csoundScoreEventAbsoluteInternal 105 12884905984 0 1072693248] ∧
    (∀ (junk : List Nat) (type pfields numFields time_ofs : Nat),
      type < 256 ^ 1 → pfields < 256 ^ 8 → numFields < 256 ^ 8 → time_ofs < 256 ^ 8 →
      thenDrain lp64Double (csoundScoreEvent_enqueue lp64Double junk fresh type pfields
          numFields) = some [.csoundScoreEventInternal type pfields numFields] ∧
      thenDrain lp64Double (csoundScoreEventAbsolute_enqueue lp64Double junk fresh type pfields
          numFields time_ofs) =
        some [.csoundScoreEventAbsoluteInternal type pfields numFields time_ofs]) := by
  refine ⟨by decide, by decide, ?_⟩
  intro junk type pfields numFields time_ofs ht hpf hnf hto
  exact ⟨scoreEvent_roundtrip lp64Double junk rfl (by decide) type pfields numFields ht hpf hnf,
    scoreEventAbsolute_roundtrip lp64Double junk rfl (by decide) type pfields numFields time_ofs
      ht hpf hnf hto⟩

/-- C4. For the table-set, table-copy-out, table-copy-in, input-message and
read-score kinds, whatever the local array held before: the enqueueing function
called on a fresh engine, followed by `message_dequeue`, makes exactly one
internal call, the matching one, with exactly the arguments given. -/
theorem enqueue_roundtrip_other_kinds (abi : ABI) (junk : List Nat)
    (table index value ptable message : Nat)
    (hp : sizeofInt + abi.sizeofPtr ≤ 128) (hf : 2 * sizeofInt + abi.sizeofMYFLT ≤ 128)
    (ht : table < 256 ^ sizeofInt) (hi : index < 256 ^ sizeofInt)
    (hv : value < 256 ^ abi.sizeofMYFLT) (hpt : ptable < 256 ^ abi.sizeofPtr)
    (hm : message < 256 ^ abi.sizeofPtr) :
    thenDrain abi (csoundTableSet_enqueue abi junk fresh table index value) =
      some [.csoundTableSetInternal table index value] ∧
    thenDrain abi (csoundTableCopyOut_enqueue abi junk fresh table ptable) =
      some [.csoundTableCopyOutInternal table ptable] ∧
    thenDrain abi (csoundTableCopyIn_enqueue abi junk fresh table ptable) =
      some [.csoundTableCopyInInternal table ptable] ∧
    thenDrain abi (csoundInputMessage_enqueue abi junk fresh message) =
      some [.csoundInputMessageInternal message] ∧
    thenDrain abi (csoundReadScore_enqueue abi junk fresh message) =
      some [.csoundReadScoreInternal message] :=
  ⟨tableSet_roundtrip abi junk hf table index value ht hi hv,
    tableCopyOut_roundtrip abi junk hp table ptable ht hpt,
    tableCopyIn_roundtrip abi junk hp table ptable ht hpt,
    inputMessage_roundtrip abi junk (by have : sizeofInt = 4 := rfl; omega) message hm,
    readScore_roundtrip abi junk (by have : sizeofInt = 4 := rfl; omega) message hm⟩

theorem enqueue_roundtrip_other_kinds_witness :
    thenDrain lp64Double (csoundTableSet_enqueue lp64Double [7, 7, 7] fresh 3 5
        4612811918334230528) = some [.csoundTableSetInternal 3 5 4612811918334230528] ∧
    thenDrain lp64Double (csoundTableCopyOut_enqueue lp64Double [7, 7, 7] fresh 3 8192) =
      some [.csoundTableCopyOutInternal 3 8192] ∧
    thenDrain lp64Double (csoundTableCopyIn_enqueue lp64Double [7, 7, 7] fresh 3 8192) =
      some [.csoundTableCopyInInternal 3 8192] ∧
    thenDrain lp64Double (csoundInputMessage_enqueue lp64Double [7, 7, 7] fresh 4096) =
      some [.csoundInputMessageInternal 4096] ∧
    thenDrain lp64Double (csoundReadScore_enqueue lp64Double [7, 7, 7] fresh 4096) =
      some [.csoundReadScoreInternal 4096] :=
  enqueue_roundtrip_other_kinds lp64Double [7, 7, 7] 3 5 4612811918334230528 8192 4096
    (by decide) (by decide) (by decide) (by decide) (by decide) (by decide) (by decide)

/-! ## Lemmas on string payloads -/

theorem toInt_of_lt (n : Nat) (h : n < 2 ^ 31) : toInt n = (n : Int) := by
  unfold toInt
  have h1 : (n + 2 ^ 31) % 2 ^ 32 = n + 2 ^ 31 := Nat.mod_eq_of_lt (by omega)
  rw [h1]
  push_cast
  omega

theorem toUnsigned_of_nonneg (i : Int) (h0 : 0 ≤ i) (h1 : i < 2 ^ 31) :
    (toUnsigned i : Int) = i := by
  unfold toUnsigned
  have h2 : i % 2 ^ 32 = i := Int.emod_eq_of_lt h0 (by omega)
  rw [h2]
  exact Int.toNat_of_nonneg h0

theorem strlen_append (text rest : List Nat) (hz : ∀ b ∈ text, b ≠ 0) :
    strlen (text ++ 0 :: rest) = some text.length := by
  induction text with
  | nil => simp [strlen]
  | cons a as ih =>
    have ha : a ≠ 0 := hz a (List.mem_cons_self a as)
    have := ih (fun b hb => hz b (List.mem_cons_of_mem a hb))
    simp [strlen, ha, this]

theorem memcpy_zero (dst src : List Nat) : memcpy dst 0 src = src ++ dst.drop src.length := by
  simp [memcpy]

theorem setString_grow (db : ChannelDb) (newAddr : Nat) (strs : List STRINGDAT)
    (name string : List Nat) (p : Nat) (sd : STRINGDAT)
    (hres : db.getChannelPtr name .string .input = (CSOUND_SUCCESS, p))
    (hsd : strs[p]? = some sd) (h0 : 0 ≤ sd.size) (h1 : sd.size < 2 ^ 31)
    (hgt : sd.size < ((string.length + 1 : Nat) : Int)) :
    csoundSetStringChannel db newAddr strs name string =
      .ok (strs.set p ⟨some (cs_strdup newAddr string), toInt (string.length + 1)⟩,
        [Ev.getChannelPtr name .string .input, .read p .size, .getChannelLock name] ++
          lockEv (db.getChannelLock name) ++ [.read p .data] ++
          (match sd.data with
            | some b => [Ev.free b.addr]
            | none => []) ++
          [.strdup newAddr, .write p .data, .write p .size] ++
          unlockEv (db.getChannelLock name)) := by
  have hu := toUnsigned_of_nonneg sd.size h0 h1
  have hcmp : string.length + 1 > toUnsigned sd.size := by omega
  unfold csoundSetStringChannel
  simp only [hres, hsd, if_true, if_pos hcmp]

theorem setString_keep (db : ChannelDb) (newAddr : Nat) (strs : List STRINGDAT)
    (name string : List Nat) (p : Nat) (sd : STRINGDAT) (b : Buffer)
    (hres : db.getChannelPtr name .string .input = (CSOUND_SUCCESS, p))
    (hsd : strs[p]? = some sd) (h0 : 0 ≤ sd.size) (h1 : sd.size < 2 ^ 31)
    (hle : ((string.length + 1 : Nat) : Int) ≤ sd.size)
    (hb : sd.data = some b) (hal : string.length + 1 ≤ b.bytes.length) :
    csoundSetStringChannel db newAddr strs name string =
      .ok (strs.set p ⟨some ⟨b.addr, memcpy b.bytes 0 (string ++ [0])⟩, sd.size⟩,
        [Ev.getChannelPtr name .string .input, .read p .size, .getChannelLock name] ++
          lockEv (db.getChannelLock name) ++ [.read p .data, .write p .contents] ++
          unlockEv (db.getChannelLock name)) := by
  have hu := toUnsigned_of_nonneg sd.size h0 h1
  have hcmp : ¬ string.length + 1 > toUnsigned sd.size := by omega
  unfold csoundSetStringChannel
  simp only [hres, hsd, if_true, if_neg hcmp, hb, if_pos hal]

theorem take_memcpy_zero (dst src : List Nat) : (memcpy dst 0 src).take src.length = src := by
  rw [memcpy_zero, List.take_left']
  rfl

theorem validString_buffer (sd : STRINGDAT) (hvalid : validString sd) (n : Nat)
    (hn : ((n + 1 : Nat) : Int) ≤ sd.size) :
    ∃ b, sd.data = some b ∧ n + 1 ≤ b.bytes.length := by
  obtain ⟨_, _, h3⟩ := hvalid
  unfold allocated at h3
  cases hd : sd.data with
  | none =>
    rw [hd] at h3
    simp only at h3
    omega
  | some b =>
    rw [hd] at h3
    simp only at h3
    exact ⟨b, rfl, by omega⟩

theorem setString_step (db : ChannelDb) (newAddr : Nat) (strs : List STRINGDAT)
    (name string : List Nat) (p : Nat) (sd : STRINGDAT)
    (hres : db.getChannelPtr name .string .input = (CSOUND_SUCCESS, p))
    (hsd : strs[p]? = some sd) (hvalid : validString sd)
    (hz : ∀ b ∈ string, b ≠ 0) (hL : string.length + 1 < 2 ^ 31) :
    ∃ sd1 evs, csoundSetStringChannel db newAddr strs name string = .ok (strs.set p sd1, evs) ∧
      (strs.set p sd1)[p]? = some sd1 ∧ validString sd1 ∧ capacityInv sd1 ∧
      (∃ b1 rest, sd1.data = some b1 ∧ b1.bytes = string ++ 0 :: rest) ∧
      sd.size ≤ sd1.size := by
  have hlen : (string ++ [0]).length = string.length + 1 := by simp
  have hp : p < strs.length := by
    rcases Nat.lt_or_ge p strs.length with h | h
    · exact h
    · rw [List.getElem?_eq_none h] at hsd
      cases hsd
  have hset : ∀ x : STRINGDAT, (strs.set p x)[p]? = some x := by
    intro x
    rw [List.getElem?_set_self hp]
  by_cases hle : ((string.length + 1 : Nat) : Int) ≤ sd.size
  · obtain ⟨b, hb, hal⟩ := validString_buffer sd hvalid string.length hle
    have hstored : strlen (memcpy b.bytes 0 (string ++ [0])) = some string.length := by
      rw [memcpy_zero, List.append_assoc]
      exact strlen_append string _ hz
    refine ⟨_, _, setString_keep db newAddr strs name string p sd b hres hsd hvalid.1
      hvalid.2.1 hle hb hal, hset _, ?_, ?_, ?_, ?_⟩
    · refine ⟨hvalid.1, hvalid.2.1, ?_⟩
      have h3 := hvalid.2.2
      unfold allocated at h3 ⊢
      rw [hb] at h3
      simp only at h3 ⊢
      rw [length_memcpy _ _ _ (by rw [hlen]; omega)]
      exact h3
    · exact ⟨string.length, hstored, by push_cast at hle ⊢; omega⟩
    · refine ⟨_, b.bytes.drop (string ++ [0]).length, rfl, ?_⟩
      simp only
      rw [memcpy_zero, List.append_assoc]
      rfl
    · exact Int.le_refl _
  · have hgt : sd.size < ((string.length + 1 : Nat) : Int) := by omega
    have hti := toInt_of_lt _ hL
    have hstored : strlen (string ++ [0]) = some string.length := strlen_append string [] hz
    refine ⟨_, _, setString_grow db newAddr strs name string p sd hres hsd hvalid.1
      hvalid.2.1 hgt, hset _, ?_, ?_, ?_, ?_⟩
    · refine ⟨?_, ?_, ?_⟩
      · simp only [hti]
        omega
      · simp only [hti]
        omega
      · simp only [hti, allocated, cs_strdup, hlen]
        exact Int.le_refl _
    · exact ⟨string.length, hstored, by simp only [hti]; push_cast; omega⟩
    · exact ⟨_, [], rfl, rfl⟩
    · simp only [hti]
      omega

/-- C10. Control round trip: for a non-empty name that resolves to the same
control scalar for the input and the output direction, and any value `v` (the
bit pattern of a `MYFLT`), `csoundSetControlChannel(name, v)` followed by
`csoundGetControlChannel(name, &err)` returns exactly `v` and sets `err` to
`CSOUND_SUCCESS`; with or without `HAVE_ATOMIC_BUILTIN` (without it the
channel's lock must exist, as the setter takes it unconditionally). -/
theorem control_channel_roundtrip (db : ChannelDb) (atomic : Bool) (ctl : List Nat)
    (name : List Nat) (p v : Nat) (err : Int)
    (hname : name ≠ [])
    (hin : db.getChannelPtr name .control .input = (CSOUND_SUCCESS, p))
    (hout : db.getChannelPtr name .control .output = (CSOUND_SUCCESS, p))
    (hp : p < ctl.length)
    (hlock : atomic = false → db.getChannelLock name ≠ none) :
    ∃ ctl1 evs1 evs2,
      csoundSetControlChannel db atomic ctl name v = .ok (ctl1, evs1) ∧
      csoundGetControlChannel db ctl1 name (some err) =
        .ok (v, some CSOUND_SUCCESS, evs2) := by
  have hn0 : ¬ name.length = 0 := by
    intro h
    exact hname (List.length_eq_zero.mp h)
  have hget : (ctl.set p v)[p]? = some v := by
    rw [List.getElem?_set_self hp]
  have hread : csoundGetControlChannel db (ctl.set p v) name (some err) =
      .ok (v, some CSOUND_SUCCESS, [.getChannelPtr name .control .output, .read p .value]) := by
    unfold csoundGetControlChannel
    simp only [if_neg hn0, hout, if_true, hget]
  cases atomic with
  | true =>
    refine ⟨ctl.set p v, [.getChannelPtr name .control .input, .write p .value], _, ?_, hread⟩
    unfold csoundSetControlChannel
    simp only [hin, if_true, if_neg (Nat.not_le.mpr hp)]
  | false =>
    cases hl : db.getChannelLock name with
    | none => exact absurd hl (hlock rfl)
    | some l =>
      refine ⟨ctl.set p v, [.getChannelPtr name .control .input, .getChannelLock name,
        .spinLock l, .write p .value, .spinUnLock l], _, ?_, hread⟩
      unfold csoundSetControlChannel
      simp only [hin, if_true, if_neg (Nat.not_le.mpr hp), hl]
      rfl

theorem control_channel_roundtrip_witness :
    ∃ ctl1 evs1 evs2,
      csoundSetControlChannel (oneChannel .control) false [0] [97] 18442240474082181119 =
        .ok (ctl1, evs1) ∧
      csoundGetControlChannel (oneChannel .control) ctl1 [97] (some 5) =
        .ok (18442240474082181119, some CSOUND_SUCCESS, evs2) :=
  control_channel_roundtrip (oneChannel .control) false [0] [97] 0 18442240474082181119 5
    (by decide) rfl rfl (by decide) (by decide)

/-! ## The accessors when the lookup fails -/

theorem length_ne_zero_of_ne_nil {name : List Nat} (h : name ≠ []) : ¬ name.length = 0 := by
  intro h0
  exact h (List.length_eq_zero.mp h0)

/-- C11. `csoundGetControlChannel` on failure: for a non-empty name whose
lookup as a control output channel does not return `CSOUND_SUCCESS`, it returns
the zero value, makes that one lookup and nothing else, and stores the lookup's
status in `err` when `err` is not NULL (a NULL `err` stays NULL); for the empty
name it returns the zero value, makes no lookup and leaves `err` as it was. -/
theorem csoundGetControlChannel_failure (db : ChannelDb) (ctl : List Nat) (name : List Nat)
    (err : Option Int) (hname : name ≠ [])
    (hfail : (db.getChannelPtr name .control .output).1 ≠ CSOUND_SUCCESS) :
    csoundGetControlChannel db ctl name err =
      .ok (0, err.map (fun _ => (db.getChannelPtr name .control .output).1),
        [.getChannelPtr name .control .output]) ∧
    csoundGetControlChannel db ctl [] err = .ok (0, err, []) := by
  refine ⟨?_, rfl⟩
  unfold csoundGetControlChannel
  simp only [if_neg (length_ne_zero_of_ne_nil hname), if_neg hfail]
  cases err <;> rfl

theorem csoundGetControlChannel_failure_witness :
    csoundGetControlChannel (oneChannel .control) [7] [98] (some 5) =
      .ok (0, (some (5 : Int)).map
          (fun _ => ((oneChannel .control).getChannelPtr [98] .control .output).1),
        [.getChannelPtr [98] .control .output]) ∧
    csoundGetControlChannel (oneChannel .control) [7] [] (some 5) = .ok (0, some 5, []) :=
  csoundGetControlChannel_failure (oneChannel .control) [7] [98] (some 5) (by decide)
    (by decide)

/-! ## Spectral-frame channels -/

theorem frameCount_ok (N : Int) (h0 : 0 ≤ N) (h1 : N + 2 < 2 ^ 31) :
    frameCount N = .ok (N + 2).toNat := by
  unfold frameCount
  rw [if_neg (by omega)]

/-- One `csoundSetPvsChannel` call on a resolved channel with a valid payload
and a valid source. -/
theorem setPvs_step (db : ChannelDb) (newAddr : Nat) (junk : List Nat) (pvs : List PVSDATEXT)
    (fin : PVSDATEXT) (name : List Nat) (p l : Nat) (f : PVSDATEXT)
    (hres : db.getChannelPtr name .pvs .input = (CSOUND_SUCCESS, p)) (hp : p ≠ 0)
    (hlock : db.getChannelLock name = some l) (hf : pvs[p]? = some f)
    (hvalid : validPvs f) (hsrc : validSource fin) :
    ∃ f1 b1 evs, csoundSetPvsChannel db newAddr junk pvs fin name =
        .ok (pvs.set p f1, CSOUND_SUCCESS, evs) ∧
      (pvs.set p f1)[p]? = some f1 ∧ f1.N = fin.N ∧ f1.header = fin.header ∧
      f1.frame = some b1 ∧ fin.N + 2 ≤ (b1.elems.length : Int) ∧
      (((f.frame = none ∨ f.N < fin.N) → (b1.elems.length : Int) = fin.N + 2) ∧
        (¬ (f.frame = none ∨ f.N < fin.N) → b1.elems.length = frameLen f)) ∧
      (∀ src, fin.frame = some src →
        b1.elems.take (fin.N + 2).toNat = src.elems.take (fin.N + 2).toNat) := by
  obtain ⟨h0, h1, h2⟩ := hsrc
  have hcnt := frameCount_ok fin.N h0 h1
  have hplt : p < pvs.length := by
    rcases Nat.lt_or_ge p pvs.length with h | h
    · exact h
    · rw [List.getElem?_eq_none h] at hf
      cases hf
  have hset : ∀ x : PVSDATEXT, (pvs.set p x)[p]? = some x := fun x => by
    rw [List.getElem?_set_self hplt]
  -- the allocation step
  have halloc : ∃ b aev, pvsAllocate newAddr junk p f fin = .ok (b, aev) ∧
      fin.N + 2 ≤ (b.elems.length : Int) ∧
      (((f.frame = none ∨ f.N < fin.N) → (b.elems.length : Int) = fin.N + 2) ∧
        (¬ (f.frame = none ∨ f.N < fin.N) → b.elems.length = frameLen f)) := by
    unfold pvsAllocate
    cases hfr : f.frame with
    | none =>
      simp only [hcnt]
      refine ⟨_, _, rfl, ?_, ?_, ?_⟩
      · simp only [List.length_replicate]
        omega
      · intro _
        simp only [List.length_replicate]
        omega
      · intro h
        exact absurd (Or.inl trivial) h
    | some b =>
      simp only
      by_cases hlt : f.N < fin.N
      · simp only [if_pos hlt, hcnt]
        refine ⟨_, _, rfl, ?_, ?_, ?_⟩
        · simp only [length_vla]
          omega
        · intro _
          simp only [length_vla]
          omega
        · intro h
          exact absurd (Or.inr hlt) h
      · simp only [if_neg hlt]
        have hv : f.N + 2 ≤ (b.elems.length : Int) := by
          rcases hvalid with h | h
          · rw [hfr] at h
            cases h
          · simpa [frameLen, hfr] using h
        refine ⟨b, _, rfl, by omega, ?_, ?_⟩
        · intro h
          rcases h with h | h
          · cases h
          · exact absurd h hlt
        · intro _
          simp [frameLen, hfr]
  obtain ⟨b, aev, hal, hge, hkind⟩ := halloc
  unfold csoundSetPvsChannel
  simp only [hres, if_true, hlock, if_neg hp, hf, hal]
  cases hsf : fin.frame with
  | none =>
    simp only
    exact ⟨_, b, _, rfl, hset _, rfl, rfl, rfl, hge, hkind, fun src h => by cases h⟩
  | some src =>
    have hsl : fin.N + 2 ≤ (src.elems.length : Int) := by
      rcases h2 with h | h
      · rw [hsf] at h
        cases h
      · simpa [frameLen, hsf] using h
    have hcond : ¬ (src.elems.length < (fin.N + 2).toNat ∨ b.elems.length < (fin.N + 2).toNat) := by
      omega
    have htl : (src.elems.take (fin.N + 2).toNat).length = (fin.N + 2).toNat := by
      rw [List.length_take]
      omega
    simp only [hcnt, if_neg hcond]
    refine ⟨_, ⟨b.addr, memcpy b.elems 0 (src.elems.take (fin.N + 2).toNat)⟩, _, rfl, hset _,
      rfl, rfl, rfl, ?_, ?_, ?_⟩
    · simp only
      rw [length_memcpy _ _ _ (by rw [htl]; omega)]
      exact hge
    · simp only
      rw [length_memcpy _ _ _ (by rw [htl]; omega)]
      exact hkind
    · intro src1 h
      cases h
      simp only
      have := take_memcpy_zero b.elems (src.elems.take (fin.N + 2).toNat)
      rw [htl] at this
      rw [this]

/-- C12. `csoundGetPvsChannel` copies `N` elements of the frame, not `N + 2`:
after `csoundSetPvsChannel` with `N = 10` and the source elements 1, ..., 12
(all 12 are stored in the channel), `csoundGetPvsChannel` into a zeroed frame
of 12 elements returns success with `N = 10` and the metadata of the source,
but leaves the last two elements 0 instead of 11 and 12. -/
theorem pvs_get_drops_last_two :
    ∃ pvs1 evs1 evs2,
      csoundSetPvsChannel pvsChannel 700 [] [emptyPvs, emptyPvs] (sourceFrame 10) [97] =
        .ok (pvs1, CSOUND_SUCCESS, evs1) ∧
      pvs1[1]? = some ⟨10, [0, 10, 4, 10, 1, 0, 7],
        some ⟨700, [1, 2, 3, 4, 5, 6, 7, 8, 9, 10, 11, 12]⟩⟩ ∧
      csoundGetPvsChannel pvsChannel pvs1 (destFrame 12) [97] =
        .ok (⟨10, [0, 10, 4, 10, 1, 0, 7], some ⟨600, [1, 2, 3, 4, 5, 6, 7, 8, 9, 10, 0, 0]⟩⟩,
          CSOUND_SUCCESS, evs2) :=
  ⟨_, _, _, rfl, rfl, rfl⟩

/-- The claim C14 as stated fails: `csoundGetPvsChannel` returns the error
code although the lookup succeeded, when the pointer the lookup stored is
NULL. -/
theorem csoundGetPvsChannel_null_pointer :
    (nullPvsChannel.getChannelPtr [97] .pvs .output).1 = CSOUND_SUCCESS ∧
    csoundGetPvsChannel nullPvsChannel [emptyPvs, emptyPvs] (destFrame 12) [97] =
      .ok (destFrame 12, CSOUND_ERROR,
        [.getChannelPtr [97] .pvs .output, .getChannelLock [97]]) :=
  ⟨rfl, rfl⟩

theorem setPvs_status (db : ChannelDb) (newAddr : Nat) (junk : List Nat)
    (pvs pvs1 : List PVSDATEXT) (fin : PVSDATEXT) (name : List Nat) (st : Int) (evs : List Ev)
    (hok : (db.getChannelPtr name .pvs .input).1 = CSOUND_SUCCESS)
    (hrun : csoundSetPvsChannel db newAddr junk pvs fin name = .ok (pvs1, st, evs)) :
    st = CSOUND_SUCCESS := by
  unfold csoundSetPvsChannel at hrun
  simp only [hok, if_true] at hrun
  split at hrun
  · cases hrun
  · split at hrun
    · cases hrun
    · split at hrun
      · cases hrun
      · split at hrun
        · cases hrun
        · split at hrun
          · cases hrun
            rfl
          · split at hrun
            · cases hrun
            · split at hrun
              · cases hrun
              · cases hrun
                rfl

theorem getPvs_status (db : ChannelDb) (pvs : List PVSDATEXT) (fout fout1 : PVSDATEXT)
    (name : List Nat) (st : Int) (evs : List Ev)
    (hok : (db.getChannelPtr name .pvs .output).1 = CSOUND_SUCCESS)
    (hp : (db.getChannelPtr name .pvs .output).2 ≠ 0)
    (hrun : csoundGetPvsChannel db pvs fout name = .ok (fout1, st, evs)) :
    st = CSOUND_SUCCESS := by
  unfold csoundGetPvsChannel at hrun
  simp only [hok, if_true, if_neg hp] at hrun
  split at hrun
  · cases hrun
  · split at hrun
    · cases hrun
    · split at hrun
      · split at hrun
        · cases hrun
        · cases hrun
          rfl
      · cases hrun
        rfl

theorem getPvs_ok (db : ChannelDb) (pvs : List PVSDATEXT) (fout : PVSDATEXT) (name : List Nat)
    (p l : Nat) (f : PVSDATEXT)
    (hres : db.getChannelPtr name .pvs .output = (CSOUND_SUCCESS, p)) (hp : p ≠ 0)
    (hlock : db.getChannelLock name = some l) (hf : pvs[p]? = some f)
    (hroom : fout.frame = none ∨ f.frame = none ∨
      (0 ≤ f.N ∧ f.N ≤ (frameLen f : Int) ∧ f.N ≤ (frameLen fout : Int))) :
    ∃ fout1 evs, csoundGetPvsChannel db pvs fout name = .ok (fout1, CSOUND_SUCCESS, evs) ∧
      fout1.N = f.N ∧ fout1.header = f.header := by
  unfold csoundGetPvsChannel
  simp only [hres, if_true, if_neg hp, hlock, hf]
  cases hd : fout.frame with
  | none => exact ⟨_, _, rfl, rfl, rfl⟩
  | some d =>
    cases hb : f.frame with
    | none => exact ⟨_, _, rfl, rfl, rfl⟩
    | some b =>
      have hr : 0 ≤ f.N ∧ f.N ≤ (b.elems.length : Int) ∧ f.N ≤ (d.elems.length : Int) := by
        rcases hroom with h | h | h
        · rw [hd] at h
          cases h
        · rw [hb] at h
          cases h
        · simpa [frameLen, hd, hb] using h
      have hcond : ¬ (f.N < 0 ∨ b.elems.length < f.N.toNat ∨ d.elems.length < f.N.toNat) := by
        omega
      simp only [if_neg hcond]
      exact ⟨_, _, rfl, rfl, rfl⟩

/-- C14, amended. `csoundSetPvsChannel` returns the error code when the lookup
(spectral-frame kind, input direction) fails, and `csoundGetPvsChannel` when
the lookup (output direction) fails or stores a NULL pointer; in these cases
the payloads and the caller's frame are as they were and no lock was taken.
Otherwise the status they return is the success code, and they do return on a
resolved channel with a lock, a valid payload and a valid source (set), or a
destination with room for `N` elements (get). -/
theorem pvs_status (db : ChannelDb) (newAddr : Nat) (junk : List Nat) (pvs : List PVSDATEXT)
    (fin fout : PVSDATEXT) (name : List Nat) :
    ((db.getChannelPtr name .pvs .input).1 ≠ CSOUND_SUCCESS →
      csoundSetPvsChannel db newAddr junk pvs fin name =
        .ok (pvs, CSOUND_ERROR, [.getChannelPtr name .pvs .input])) ∧
    ((db.getChannelPtr name .pvs .input).1 = CSOUND_SUCCESS →
      ∀ pvs1 st evs, csoundSetPvsChannel db newAddr junk pvs fin name = .ok (pvs1, st, evs) →
        st = CSOUND_SUCCESS) ∧
    (∀ p l f, db.getChannelPtr name .pvs .input = (CSOUND_SUCCESS, p) → p ≠ 0 →
      db.getChannelLock name = some l → pvs[p]? = some f → validPvs f → validSource fin →
      ∃ pvs1 evs, csoundSetPvsChannel db newAddr junk pvs fin name =
        .ok (pvs1, CSOUND_SUCCESS, evs)) ∧
    ((db.getChannelPtr name .pvs .output).1 ≠ CSOUND_SUCCESS →
      csoundGetPvsChannel db pvs fout name =
        .ok (fout, CSOUND_ERROR, [.getChannelPtr name .pvs .output])) ∧
    ((db.getChannelPtr name .pvs .output).1 = CSOUND_SUCCESS →
      (db.getChannelPtr name .pvs .output).2 = 0 →
      csoundGetPvsChannel db pvs fout name =
        .ok (fout, CSOUND_ERROR, [.getChannelPtr name .pvs .output, .getChannelLock name])) ∧
    ((db.getChannelPtr name .pvs .output).1 = CSOUND_SUCCESS →
      (db.getChannelPtr name .pvs .output).2 ≠ 0 →
      ∀ fout1 st evs, csoundGetPvsChannel db pvs fout name = .ok (fout1, st, evs) →
        st = CSOUND_SUCCESS) ∧
    (∀ p l f, db.getChannelPtr name .pvs .output = (CSOUND_SUCCESS, p) → p ≠ 0 →
      db.getChannelLock name = some l → pvs[p]? = some f →
      (fout.frame = none ∨ f.frame = none ∨
        (0 ≤ f.N ∧ f.N ≤ (frameLen f : Int) ∧ f.N ≤ (frameLen fout : Int))) →
      ∃ fout1 evs, csoundGetPvsChannel db pvs fout name = .ok (fout1, CSOUND_SUCCESS, evs)) := by
  refine ⟨?_, ?_, ?_, ?_, ?_, ?_, ?_⟩
  · intro h
    unfold csoundSetPvsChannel
    simp only [if_neg h]
  · intro h pvs1 st evs hrun
    exact setPvs_status db newAddr junk pvs pvs1 fin name st evs h hrun
  · intro p l f hres hp hlock hf hvalid hsrc
    obtain ⟨f1, _, evs, hrun, _⟩ :=
      setPvs_step db newAddr junk pvs fin name p l f hres hp hlock hf hvalid hsrc
    exact ⟨_, evs, hrun⟩
  · intro h
    unfold csoundGetPvsChannel
    simp only [if_neg h]
  · intro h h0
    unfold csoundGetPvsChannel
    simp only [h, if_true, h0]
  · intro h h0 fout1 st evs hrun
    exact getPvs_status db pvs fout fout1 name st evs h h0 hrun
  · intro p l f hres hp hlock hf hroom
    obtain ⟨fout1, evs, hrun, _⟩ := getPvs_ok db pvs fout name p l f hres hp hlock hf hroom
    exact ⟨fout1, evs, hrun⟩

theorem pvs_status_witness :
    csoundSetPvsChannel pvsChannel 700 [] [emptyPvs, emptyPvs] (sourceFrame 10) [98] =
      .ok ([emptyPvs, emptyPvs], CSOUND_ERROR, [.getChannelPtr [98] .pvs .input]) ∧
    csoundGetPvsChannel pvsChannel [emptyPvs, emptyPvs] (destFrame 12) [98] =
      .ok (destFrame 12, CSOUND_ERROR, [.getChannelPtr [98] .pvs .output]) ∧
    (∃ pvs1 evs, csoundSetPvsChannel pvsChannel 700 [] [emptyPvs, emptyPvs] (sourceFrame 10)
      [97] = .ok (pvs1, CSOUND_SUCCESS, evs)) ∧
    (∃ fout1 evs, csoundGetPvsChannel pvsChannel [emptyPvs, emptyPvs] (destFrame 12) [97] =
      .ok (fout1, CSOUND_SUCCESS, evs)) :=
  ⟨(pvs_status pvsChannel 700 [] [emptyPvs, emptyPvs] (sourceFrame 10) (destFrame 12) [98]).1
      (by decide),
    (pvs_status pvsChannel 700 [] [emptyPvs, emptyPvs] (sourceFrame 10)
      (destFrame 12) [98]).2.2.2.1 (by decide),
    (pvs_status pvsChannel 700 [] [emptyPvs, emptyPvs] (sourceFrame 10)
      (destFrame 12) [97]).2.2.1 1 9 emptyPvs rfl (by decide) rfl rfl (by decide) (by decide),
    (pvs_status pvsChannel 700 [] [emptyPvs, emptyPvs] (sourceFrame 10)
      (destFrame 12) [97]).2.2.2.2.2.2 1 9 emptyPvs rfl (by decide) rfl rfl (Or.inr (Or.inl rfl))⟩

/-! ## The gated entry points -/

/-- C15. Of the three gates that are declared to return a status, only
`csoundReadScore` returns the value of its internal function; in
`csoundScoreEvent` and `csoundScoreEventAbsolute` the value of the internal
call is dropped and control reaches the end of the function without a `return`
statement, so no value is handed back, whatever the internal function
returned. -/
theorem score_event_gates_return_nothing (internal : Call → Int)
    (message type pfields numFields time_ofs : Nat) :
    (csoundReadScore internal message).1 = some (internal (.csoundReadScoreInternal message)) ∧
    (csoundScoreEvent internal type pfields numFields).1 = none ∧
    (csoundScoreEvent internal type pfields numFields).1 ≠
      some (internal (.csoundScoreEventInternal type pfields numFields)) ∧
    (csoundScoreEventAbsolute internal type pfields numFields time_ofs).1 = none ∧
    (csoundScoreEventAbsolute internal type pfields numFields time_ofs).1 ≠
      some (internal (.csoundScoreEventAbsoluteInternal type pfields numFields time_ofs)) :=
  ⟨rfl, rfl, by simp [csoundScoreEvent], rfl, by simp [csoundScoreEventAbsolute]⟩

/-- C16. The locking protocol of the gates, as traces: `csoundInputMessage`,
`csoundReadScore`, `csoundTableCopyOut`, `csoundTableSet`, `csoundScoreEvent`
and `csoundScoreEventAbsolute` each lock the API mutex, call their internal
function once with the caller's arguments and unlock the API mutex;
`csoundTableCopyIn` makes its internal call between a lock and an unlock of the
init-pass mutex when the real-time flag is set, makes just the call otherwise,
and never touches the API mutex. -/
theorem gate_locking_protocol (internal : Call → Int) (realtime : Bool)
    (message table ptable index value type pfields numFields time_ofs : Nat) :
    csoundInputMessage message =
      [.csoundLockMutex .API_lock, .call (.csoundInputMessageInternal message),
        .csoundUnlockMutex .API_lock] ∧
    (csoundReadScore internal message).2 =
      [.csoundLockMutex .API_lock, .call (.csoundReadScoreInternal message),
        .csoundUnlockMutex .API_lock] ∧
    csoundTableCopyOut table ptable =
      [.csoundLockMutex .API_lock, .call (.csoundTableCopyOutInternal table ptable),
        .csoundUnlockMutex .API_lock] ∧
    csoundTableSet table index value =
      [.csoundLockMutex .API_lock, .call (.csoundTableSetInternal table index value),
        .csoundUnlockMutex .API_lock] ∧
    (csoundScoreEvent internal type pfields numFields).2 =
      [.csoundLockMutex .API_lock, .call (.csoundScoreEventInternal type pfields numFields),
        .csoundUnlockMutex .API_lock] ∧
    (csoundScoreEventAbsolute internal type pfields numFields time_ofs).2 =
      [.csoundLockMutex .API_lock,
        .call (.csoundScoreEventAbsoluteInternal type pfields numFields time_ofs),
        .csoundUnlockMutex .API_lock] ∧
    csoundTableCopyIn true table ptable =
      [.csoundLockMutex .init_pass_threadlock, .call (.csoundTableCopyInInternal table ptable),
        .csoundUnlockMutex .init_pass_threadlock] ∧
    csoundTableCopyIn false table ptable = [.call (.csoundTableCopyInInternal table ptable)] ∧
    GateEv.csoundLockMutex .API_lock ∉ csoundTableCopyIn realtime table ptable ∧
    GateEv.csoundUnlockMutex .API_lock ∉ csoundTableCopyIn realtime table ptable := by
  refine ⟨rfl, rfl, rfl, rfl, rfl, rfl, rfl, rfl, ?_, ?_⟩ <;>
    cases realtime <;> simp [csoundTableCopyIn]

/-! ## Audio channels and the void accessors -/

/-- C17. The void accessors do nothing when the lookup fails: when the lookup
with the accessor's kind and direction does not return `CSOUND_SUCCESS`,
`csoundSetControlChannel`, `csoundSetAudioChannel`, `csoundGetAudioChannel`,
`csoundSetStringChannel` and `csoundGetStringChannel` return with the payloads
and the caller's buffer as they were, having made that one lookup and nothing
else (no lock is asked for or taken); and for the empty name
`csoundGetAudioChannel` and `csoundGetStringChannel` return with the buffer as
it was and without any lookup. -/
theorem void_accessors_noop_on_failure (db : ChannelDb) (atomic : Bool) (ksmps newAddr : Nat)
    (ctl : List Nat) (aud : List (List Nat)) (strs : List STRINGDAT)
    (name : List Nat) (val : Nat) (samples string : List Nat) (dest : Option (List Nat)) :
    ((db.getChannelPtr name .control .input).1 ≠ CSOUND_SUCCESS →
      csoundSetControlChannel db atomic ctl name val =
        .ok (ctl, [.getChannelPtr name .control .input])) ∧
    ((db.getChannelPtr name .audio .input).1 ≠ CSOUND_SUCCESS →
      csoundSetAudioChannel db ksmps aud name samples =
        .ok (aud, [.getChannelPtr name .audio .input])) ∧
    (name ≠ [] → (db.getChannelPtr name .audio .output).1 ≠ CSOUND_SUCCESS →
      csoundGetAudioChannel db ksmps aud name samples =
        .ok (samples, [.getChannelPtr name .audio .output])) ∧
    ((db.getChannelPtr name .string .input).1 ≠ CSOUND_SUCCESS →
      csoundSetStringChannel db newAddr strs name string =
        .ok (strs, [.getChannelPtr name .string .input])) ∧
    (name ≠ [] → (db.getChannelPtr name .string .output).1 ≠ CSOUND_SUCCESS →
      csoundGetStringChannel db strs name dest =
        .ok (dest, [.getChannelPtr name .string .output])) ∧
    csoundGetAudioChannel db ksmps aud [] samples = .ok (samples, []) ∧
    csoundGetStringChannel db strs [] dest = .ok (dest, []) := by
  refine ⟨?_, ?_, ?_, ?_, ?_, rfl, rfl⟩
  · intro h
    unfold csoundSetControlChannel
    simp only [if_neg h]
  · intro h
    unfold csoundSetAudioChannel
    simp only [if_neg h]
  · intro hn h
    unfold csoundGetAudioChannel
    simp only [if_neg (length_ne_zero_of_ne_nil hn), if_neg h]
  · intro h
    unfold csoundSetStringChannel
    simp only [if_neg h]
  · intro hn h
    unfold csoundGetStringChannel
    simp only [if_neg (length_ne_zero_of_ne_nil hn), if_neg h]

theorem void_accessors_noop_on_failure_witness :
    csoundSetControlChannel (oneChannel .string) false [7] [98] 5 =
      .ok ([7], [.getChannelPtr [98] .control .input]) ∧
    csoundSetAudioChannel (oneChannel .string) 2 [[1, 2]] [98] [3, 4] =
      .ok ([[1, 2]], [.getChannelPtr [98] .audio .input]) ∧
    csoundGetAudioChannel (oneChannel .string) 2 [[1, 2]] [98] [3, 4] =
      .ok ([3, 4], [.getChannelPtr [98] .audio .output]) ∧
    csoundSetStringChannel (oneChannel .control) 2000 [demoString] [97] [3, 4] =
      .ok ([demoString], [.getChannelPtr [97] .string .input]) ∧
    csoundGetStringChannel (oneChannel .control) [demoString] [97] (some [9, 9, 9]) =
      .ok (some [9, 9, 9], [.getChannelPtr [97] .string .output]) :=
  ⟨(void_accessors_noop_on_failure (oneChannel .string) false 2 2000 [7] [[1, 2]] [demoString]
      [98] 5 [3, 4] [3, 4] (some [9, 9, 9])).1 (by decide),
    (void_accessors_noop_on_failure (oneChannel .string) false 2 2000 [7] [[1, 2]] [demoString]
      [98] 5 [3, 4] [3, 4] (some [9, 9, 9])).2.1 (by decide),
    (void_accessors_noop_on_failure (oneChannel .string) false 2 2000 [7] [[1, 2]] [demoString]
      [98] 5 [3, 4] [3, 4] (some [9, 9, 9])).2.2.1 (by decide) (by decide),
    (void_accessors_noop_on_failure (oneChannel .control) false 2 2000 [7] [[1, 2]] [demoString]
      [97] 5 [3, 4] [3, 4] (some [9, 9, 9])).2.2.2.1 (by decide),
    (void_accessors_noop_on_failure (oneChannel .control) false 2 2000 [7] [[1, 2]] [demoString]
      [97] 5 [3, 4] [3, 4] (some [9, 9, 9])).2.2.2.2.1 (by decide) (by decide)⟩

theorem memcpy_take_zero (dst src : List Nat) (k : Nat) (h : k ≤ src.length) :
    memcpy dst 0 (src.take k) = src.take k ++ dst.drop k := by
  rw [memcpy_zero, List.length_take, Nat.min_eq_left h]

/-- C18. With `k` the processing-block sample count, on a channel that
resolves for both directions (lock present, at least `k` samples in the payload
and in the caller's buffers): `csoundSetAudioChannel` makes the first `k`
samples of the payload those of the source and changes nothing else,
`csoundGetAudioChannel` makes the first `k` samples of the destination those of
the payload and leaves the rest of the destination as it was, and a set
followed by a get hands back exactly the `k` samples set. -/
theorem audio_channel_copy (db : ChannelDb) (ksmps : Nat) (aud : List (List Nat))
    (name : List Nat) (p l : Nat) (payload src dest : List Nat)
    (hname : name ≠ [])
    (hin : db.getChannelPtr name .audio .input = (CSOUND_SUCCESS, p))
    (hout : db.getChannelPtr name .audio .output = (CSOUND_SUCCESS, p))
    (hlock : db.getChannelLock name = some l)
    (hp : aud[p]? = some payload)
    (hk1 : ksmps ≤ payload.length) (hk2 : ksmps ≤ src.length) (hk3 : ksmps ≤ dest.length) :
    ∃ evs1 evs2 evs3,
      csoundSetAudioChannel db ksmps aud name src =
        .ok (aud.set p (src.take ksmps ++ payload.drop ksmps), evs1) ∧
      csoundGetAudioChannel db ksmps aud name dest =
        .ok (payload.take ksmps ++ dest.drop ksmps, evs2) ∧
      csoundGetAudioChannel db ksmps (aud.set p (src.take ksmps ++ payload.drop ksmps)) name
        dest = .ok (src.take ksmps ++ dest.drop ksmps, evs3) := by
  have hn0 := length_ne_zero_of_ne_nil hname
  have hplt : p < aud.length := by
    rcases Nat.lt_or_ge p aud.length with h | h
    · exact h
    · rw [List.getElem?_eq_none h] at hp
      cases hp
  have hc1 : ¬ (payload.length < ksmps ∨ src.length < ksmps) := by omega
  have hc2 : ¬ (payload.length < ksmps ∨ dest.length < ksmps) := by omega
  have hlen : (src.take ksmps ++ payload.drop ksmps).length = payload.length := by
    rw [List.length_append, List.length_take, List.length_drop]
    omega
  have hc3 : ¬ ((src.take ksmps ++ payload.drop ksmps).length < ksmps ∨ dest.length < ksmps) := by
    rw [hlen]
    omega
  have htk : (src.take ksmps ++ payload.drop ksmps).take ksmps = src.take ksmps := by
    have h1 : (src.take ksmps).length = ksmps := by
      rw [List.length_take]
      omega
    rw [List.take_append_of_le_length (by omega), List.take_take, Nat.min_self]
  refine ⟨[.getChannelPtr name .audio .input, .getChannelLock name, .spinLock l,
      .write p .samples, .spinUnLock l],
    [.getChannelPtr name .audio .output, .getChannelLock name, .spinLock l,
      .read p .samples, .spinUnLock l],
    [.getChannelPtr name .audio .output, .getChannelLock name, .spinLock l,
      .read p .samples, .spinUnLock l], ?_, ?_, ?_⟩
  · unfold csoundSetAudioChannel
    simp only [hin, if_true, hlock, hp, if_neg hc1, memcpy_take_zero _ _ _ hk2]
  · unfold csoundGetAudioChannel
    simp only [if_neg hn0, hout, if_true, hlock, hp, if_neg hc2, memcpy_take_zero _ _ _ hk1]
  · unfold csoundGetAudioChannel
    simp only [if_neg hn0, hout, if_true, hlock, List.getElem?_set_self hplt, if_neg hc3]
    rw [memcpy_zero, htk, List.length_take, Nat.min_eq_left hk2]

theorem audio_channel_copy_witness :
    ∃ evs1 evs2 evs3,
      csoundSetAudioChannel (oneChannel .audio) 2 [[1, 2, 3]] [97] [7, 8, 9] =
        .ok (([[1, 2, 3]] : List (List Nat)).set 0 ([7, 8, 9].take 2 ++ [1, 2, 3].drop 2), evs1) ∧
      csoundGetAudioChannel (oneChannel .audio) 2 [[1, 2, 3]] [97] [0, 0, 0, 0] =
        .ok ([1, 2, 3].take 2 ++ [0, 0, 0, 0].drop 2, evs2) ∧
      csoundGetAudioChannel (oneChannel .audio) 2
        (([[1, 2, 3]] : List (List Nat)).set 0 ([7, 8, 9].take 2 ++ [1, 2, 3].drop 2)) [97]
        [0, 0, 0, 0] = .ok ([7, 8, 9].take 2 ++ [0, 0, 0, 0].drop 2, evs3) :=
  audio_channel_copy (oneChannel .audio) 2 [[1, 2, 3]] [97] 0 9 [1, 2, 3] [7, 8, 9] [0, 0, 0, 0]
    (by decide) rfl rfl rfl rfl (by decide) (by decide) (by decide)

/-! ## Payload accesses and the lock -/

/-- C20. Both string accessors touch the payload before the lock is taken.
On a channel with lock 9 and payload at address 0, `csoundSetStringChannel`
reads the recorded capacity (`stringdat->size`) before it asks for the lock and
takes it, and `csoundGetStringChannel` reads the buffer pointer
(`->data`) before it takes the lock; the lock is then taken once and released
once. This is so on every path: whenever `csoundSetStringChannel` returns after
a successful lookup on a channel with a lock, its first events are the lookup,
the read of the capacity, the lock lookup and the lock. -/
theorem string_accessors_read_before_lock :
    (∃ strs1, csoundSetStringChannel (oneChannel .string) 2000 [demoString] [97] demoText =
      .ok (strs1, [.getChannelPtr [97] .string .input, .read 0 .size, .getChannelLock [97],
        .spinLock 9, .read 0 .data, .write 0 .contents, .spinUnLock 9])) ∧
    (∃ out, csoundGetStringChannel (oneChannel .string) [demoString] [97] (some [9, 9, 9]) =
      .ok (out, [.getChannelPtr [97] .string .output, .getChannelLock [97], .read 0 .data,
        .spinLock 9, .read 0 .contents, .spinUnLock 9])) ∧
    (∀ (db : ChannelDb) (newAddr : Nat) (strs strs1 : List STRINGDAT) (name string : List Nat)
      (p l : Nat) (evs : List Ev),
      db.getChannelPtr name .string .input = (CSOUND_SUCCESS, p) →
      db.getChannelLock name = some l →
      csoundSetStringChannel db newAddr strs name string = .ok (strs1, evs) →
      evs.take 4 = [.getChannelPtr name .string .input, .read p .size, .getChannelLock name,
        .spinLock l]) := by
  refine ⟨⟨_, rfl⟩, ⟨_, rfl⟩, ?_⟩
  intro db newAddr strs strs1 name string p l evs hres hlock hrun
  unfold csoundSetStringChannel at hrun
  simp only [hres, if_true, hlock, lockEv] at hrun
  split at hrun
  · cases hrun
  · split at hrun
    · cases hrun
      rfl
    · split at hrun
      · cases hrun
      · split at hrun
        · cases hrun
          rfl
        · cases hrun

end Csound
